import Mathlib

/-!
Expense tracker ledger (`src/src/App.jsx`).

A shallow embedding of the ledger logic of the `App` component: the transaction
records, the form handler `addTransaction`, `deleteTransaction`,
`calculateTotals`, `filteredTransactions`, and the two `localStorage` effects.

Modelling conventions.
* A finite JavaScript number is modelled by its exact rational value (`ℚ`).
  The arithmetic the code does on numbers (`calculateTotals`) rounds every
  result to the nearest double, ties to even, as IEEE 754 binary64 does; a
  result that is not a finite number is `none`.  Amounts held in records are
  finite.  Clock readings are integers.
* React state is passed explicitly: a handler maps the state it closes over to
  the state after its `set...` calls, together with what it shows and returns.
* Clock readings (`Date.now()`, `new Date()`) are inputs of the handler.
* `JSON.stringify` and `JSON.parse` are platform functions; they are modelled
  at the level of the text: the compact output format with the number layout
  of `Number::toString`, and a recursive-descent reader of the JSON grammar.
  Strings are sequences of Unicode scalar values; object members are kept in
  the order of the text.
-/

namespace ExpenseTracker

/-! ## Data model -/

/-- A transaction record, with the fields of the object literal `newTransaction`
built in `addTransaction` (same names, same order). -/
structure Transaction where
  id : Int
  description : String
  amount : ℚ
  type : String
  category : String
  date : String
  timestamp : Int
deriving DecidableEq

/-- The content of the `amount` state variable.  It is a string, initially `''`
and afterwards the value of an `<input type="number">`, which is either the
empty string or the text of a number.  `empty` is `''`; `text q` is a non-empty
numeric text that `parseFloat` reads as `q`.  A non-empty string is truthy
whatever number it denotes, so `text 0` and `text (-5)` are truthy. -/
inductive AmountField where
  | empty : AmountField
  | text (value : ℚ) : AmountField
deriving DecidableEq

/-- A JavaScript value of the JSON fragment: what `JSON.parse` can produce. -/
inductive JSValue where
  | null : JSValue
  | bool (b : Bool) : JSValue
  | num (q : ℚ) : JSValue
  | str (s : String) : JSValue
  | arr (items : List JSValue) : JSValue
  | obj (members : List (String × JSValue)) : JSValue

/-- The component state held by the `useState` hooks of `App`. -/
structure AppState where
  transactions : List Transaction
  description : String
  amount : AmountField
  type : String
  category : String
  date : String
  filter : String

/-- The clock readings one run of `addTransaction` takes: `Date.now()` for the
id, `new Date().getTime()` for the timestamp, and
`new Date().toISOString().split('T')[0]` for the date the form is reset to. -/
structure Clock where
  now : Int
  getTime : Int
  today : String

/-- What a handler does: the state after its `set...` calls, the messages it
shows with `alert`, and the value it returns to its caller (`none` is
`undefined`). -/
structure Outcome where
  state : AppState
  alerts : List String
  returned : Option JSValue

/-- The initial state of `App`: the arguments of the `useState` calls, with
`today` the reading `new Date().toISOString().split('T')[0]` at mount. -/
def initialState (today : String) : AppState :=
  { transactions := []
    description := ""
    amount := AmountField.empty
    type := "expense"
    category := ""
    date := today
    filter := "all" }

/-! ## Ledger operations -/

/-- The handler `addTransaction` (lines 31-56).  The guard
`!description || !amount || !category` alerts and returns when one of the three
strings is empty; otherwise the new record is put in front of the list and the
form is reset.  Nothing is returned in either branch. -/
def addTransaction (c : Clock) (s : AppState) : Outcome :=
  match s.amount with
  | AmountField.empty =>
    { state := s, alerts := ["Please fill in all fields"], returned := none }
  | AmountField.text q =>
    if s.description = "" ∨ s.category = "" then
      { state := s, alerts := ["Please fill in all fields"], returned := none }
    else
      let newTransaction : Transaction :=
        { id := c.now
          description := s.description
          amount := q
          type := s.type
          category := s.category
          date := s.date
          timestamp := c.getTime }
      { state :=
          { s with
            transactions := newTransaction :: s.transactions
            description := ""
            amount := AmountField.empty
            category := ""
            date := c.today }
        alerts := []
        returned := none }

/-- The handler `deleteTransaction` (lines 58-60): keeps the records whose id
is not the given one.  It has no `return` statement. -/
def deleteTransaction (id : Int) (s : AppState) : Outcome :=
  { state := { s with transactions := s.transactions.filter (fun t => t.id ≠ id) }
    alerts := []
    returned := none }

/-! ## Double-precision arithmetic -/

/-- The integer nearest to `x`; when `x` lies halfway between two integers, the
even one. -/
def roundHalfEven (x : ℚ) : ℤ :=
  if x - ⌊x⌋ < 1 / 2 then ⌊x⌋
  else if 1 / 2 < x - ⌊x⌋ then ⌊x⌋ + 1
  else if ⌊x⌋ % 2 = 0 then ⌊x⌋
  else ⌊x⌋ + 1

/-- The exponent of the last binary place of a double of the size of `q`:
52 places below the leading bit, and never below `2 ^ (-1074)`, the spacing
of the subnormal numbers. -/
def ulpExponent (q : ℚ) : ℤ := max (Int.log 2 |q| - 52) (-1074)

/-- The value of `q` rounded to a 53-bit significand, to nearest with ties to
even, as IEEE 754 binary64 arithmetic rounds every result (the exponent is not
limited upward here; `toDouble` does that). -/
def roundDouble (q : ℚ) : ℚ :=
  (roundHalfEven (q / (2 : ℚ) ^ ulpExponent q) : ℚ) * (2 : ℚ) ^ ulpExponent q

/-- The JavaScript number an exact result `q` becomes: the nearest double, or
`none` when that is beyond the largest double and the result is `Infinity` or
`-Infinity`.  `none` stands for every value that is not a finite number. -/
def toDouble (q : ℚ) : Option ℚ :=
  if |roundDouble q| < (2 : ℚ) ^ (1024 : ℕ) then some (roundDouble q) else none

/-- The JavaScript `+` on numbers: the exact sum, rounded; a non-finite operand
gives a non-finite result. -/
def jsAdd : Option ℚ → Option ℚ → Option ℚ
  | some x, some y => toDouble (x + y)
  | _, _ => none

/-- The JavaScript `-` on numbers: the exact difference, rounded; a non-finite
operand gives a non-finite result. -/
def jsSub : Option ℚ → Option ℚ → Option ℚ
  | some x, some y => toDouble (x - y)
  | _, _ => none

/-- The rational `x` is a finite double: rounding leaves it as it is and it is
within the range of the doubles. -/
def IsDouble (x : ℚ) : Prop := roundDouble x = x ∧ |x| < (2 : ℚ) ^ (1024 : ℕ)

instance (x : ℚ) : Decidable (IsDouble x) := by
  unfold IsDouble
  infer_instance

/-- The result object of `calculateTotals`; `none` is a non-finite number. -/
structure Totals where
  income : Option ℚ
  expenses : Option ℚ
  balance : Option ℚ
deriving DecidableEq

/-- The function `calculateTotals` (lines 62-74) over the transaction list:
two `filter`/`reduce` passes that add the amounts from `0` in list order, and
one subtraction, all in double-precision arithmetic. -/
def calculateTotals (transactions : List Transaction) : Totals :=
  let income :=
    (transactions.filter (fun t => t.type = "income")).foldl
      (fun sum t => jsAdd sum (some t.amount)) (some 0)
  let expenses :=
    (transactions.filter (fun t => t.type = "expense")).foldl
      (fun sum t => jsAdd sum (some t.amount)) (some 0)
  let balance := jsSub income expenses
  { income := income, expenses := expenses, balance := balance }

/-- No addition rounds when the amounts are added one by one to `acc`: every
partial sum is a finite double. -/
def ExactFrom (acc : ℚ) : List ℚ → Prop
  | [] => True
  | x :: xs => IsDouble (acc + x) ∧ ExactFrom (acc + x) xs

/-- No operation of `calculateTotals` rounds on this snapshot: every partial
sum of the income amounts and of the expense amounts, and the difference of the
two sums, is a finite double. -/
def NoRounding (transactions : List Transaction) : Prop :=
  ExactFrom 0 ((transactions.filter (fun t => t.type = "income")).map (fun t => t.amount))
  ∧ ExactFrom 0 ((transactions.filter (fun t => t.type = "expense")).map (fun t => t.amount))
  ∧ IsDouble
      (((transactions.filter (fun t => t.type = "income")).map (fun t => t.amount)).sum
        - ((transactions.filter (fun t => t.type = "expense")).map (fun t => t.amount)).sum)

/-- The derived list `filteredTransactions` (lines 78-81). -/
def filteredTransactions (transactions : List Transaction) (filter : String) :
    List Transaction :=
  transactions.filter (fun t => if filter = "all" then true else decide (t.type = filter))

/-! ## Sequences of operations -/

/-- The form setters followed by a submit: the fields are typed into the form
(`setDescription`, `setAmount`, `setType`, `setCategory`, `setDate`), then
`addTransaction` runs. -/
def add (description : String) (amount : AmountField) (type category date : String)
    (c : Clock) (s : AppState) : Outcome :=
  addTransaction c
    { s with
      description := description
      amount := amount
      type := type
      category := category
      date := date }

/-- A ledger operation issued by the user. -/
inductive Op where
  | add (description : String) (amount : AmountField) (type category date : String)
      (c : Clock) : Op
  | remove (id : Int) : Op

/-- The state after one operation. -/
def step (s : AppState) : Op → AppState
  | Op.add description amount type category date c =>
    (add description amount type category date c s).state
  | Op.remove id => (deleteTransaction id s).state

/-- The state after a sequence of operations, run left to right. -/
def run (s : AppState) (ops : List Op) : AppState :=
  ops.foldl step s

/-- The number of `add` operations in a sequence. -/
def countAdds : List Op → Nat
  | [] => 0
  | Op.add _ _ _ _ _ _ :: ops => countAdds ops + 1
  | Op.remove _ :: ops => countAdds ops

/-- The number of successful removes in a sequence run from `s`: a remove is
successful when a record with its id is in the ledger at that point. -/
def countSuccessfulRemoves (s : AppState) : List Op → Nat
  | [] => 0
  | Op.remove id :: ops =>
    (if (s.transactions.any (fun t => t.id = id)) then 1 else 0)
      + countSuccessfulRemoves (step s (Op.remove id)) ops
  | op :: ops => countSuccessfulRemoves (step s op) ops

/-- The inputs of an `add` are valid: non-empty description, non-empty
category, and a positive amount. -/
def Op.validAdd : Op → Prop
  | Op.add description amount _ category _ _ =>
    description ≠ "" ∧ category ≠ "" ∧ ∃ q, amount = AmountField.text q ∧ 0 < q
  | Op.remove _ => True

/-- A ledger holding one expense record with id 1, used as a concrete input. -/
def sampleState : AppState :=
  { initialState "2024-02-01" with
    transactions :=
      [{ id := 1, description := "Coffee", amount := 3.50, type := "expense",
         category := "Food", date := "2024-01-15", timestamp := 1 }] }

/-- Two adds with valid inputs that read the same clock value. -/
def sameTickAdds : List Op :=
  [ Op.add "Coffee" (AmountField.text 3.50) "expense" "Food" "2024-01-15"
      { now := 1700000000000, getTime := 1700000000000, today := "2024-02-01" },
    Op.add "Salary" (AmountField.text 100.50) "income" "Salary" "2024-01-16"
      { now := 1700000000000, getTime := 1700000000000, today := "2024-02-01" } ]

/-- Every add of the sequence reads a clock value that no record of the ledger
carries as its id at that point. -/
def FreshIds (s : AppState) : List Op → Prop
  | [] => True
  | Op.add description amount type category date c :: ops =>
    (∀ t ∈ s.transactions, t.id ≠ c.now)
      ∧ FreshIds (step s (Op.add description amount type category date c)) ops
  | Op.remove id :: ops => FreshIds (step s (Op.remove id)) ops

/-! ## JSON text: a model of `JSON.stringify` and `JSON.parse` -/

/-- The decimal digit character of a number below ten. -/
def digitChar (d : Nat) : Char := Char.ofNat (48 + d)

/-- The hexadecimal digit character (lower case) of a number below sixteen. -/
def hexChar (d : Nat) : Char := if d < 10 then Char.ofNat (48 + d) else Char.ofNat (87 + d)

/-- The decimal digits of a positive number, most significant first; no digit
for zero.  The first argument bounds the number of digits. -/
def natDigitsAux : Nat → Nat → List Char
  | 0, _ => []
  | fuel + 1, n => if n = 0 then [] else natDigitsAux fuel (n / 10) ++ [digitChar (n % 10)]

/-- The decimal digits of a positive number, most significant first. -/
def natDigits (n : Nat) : List Char := natDigitsAux n n

/-- The decimal text of a natural number. -/
def natToString (n : Nat) : List Char := if n = 0 then ['0'] else natDigits n

/-- The number a list of decimal digit characters denotes. -/
def digitsValue (ds : List Char) : Nat := ds.foldl (fun acc c => 10 * acc + (c.toNat - 48)) 0

/-- The least `j` from the given start with `den ∣ 10 ^ j`, searched over at
most `fuel` candidates. -/
def decimalPlacesFrom (den : Nat) : Nat → Nat → Nat
  | 0, j => j
  | fuel + 1, j => if den ∣ 10 ^ j then j else decimalPlacesFrom den fuel (j + 1)

/-- The number of decimal places of a fraction with denominator `den`. -/
def decimalPlaces (den : Nat) : Nat := decimalPlacesFrom den den 0

/-- A rational is a finite decimal: its denominator divides a power of ten.
Every JavaScript number is one. -/
def IsDecimal (q : ℚ) : Prop := q.den ∣ 10 ^ q.den

instance (q : ℚ) : Decidable (IsDecimal q) := by
  unfold IsDecimal
  infer_instance

/-- The digits without their trailing zeros. -/
def dropTrailingZeros (ds : List Char) : List Char :=
  (ds.reverse.dropWhile (fun c => c = '0')).reverse

/-- The text of a positive number with significant digits `sig` and `n` digits
before the decimal point (`n ≤ 0` for leading zeros after it), as
`Number::toString` lays it out: plain digits up to 21 of them, a decimal point
inside or leading zeros down to `1e-6`, exponent form otherwise. -/
def renderDecimal (sig : List Char) (n : Int) : List Char :=
  if (sig.length : Int) ≤ n ∧ n ≤ 21 then
    sig ++ List.replicate (n - sig.length).toNat '0'
  else if 0 < n ∧ n ≤ 21 then
    sig.take n.toNat ++ '.' :: sig.drop n.toNat
  else if -6 < n ∧ n ≤ 0 then
    '0' :: '.' :: (List.replicate (-n).toNat '0' ++ sig)
  else
    match sig with
    | [] => []
    | [d] => d :: 'e' :: (if n - 1 < 0 then '-' else '+') :: natToString (n - 1).natAbs
    | d :: rest =>
      d :: '.' :: (rest ++ 'e' :: (if n - 1 < 0 then '-' else '+') :: natToString (n - 1).natAbs)

/-- The text `JSON.stringify` gives a number. -/
def numberToString (q : ℚ) : List Char :=
  if q = 0 then ['0']
  else
    let j := decimalPlaces q.den
    let ds := natDigits (q.num.natAbs * 10 ^ j / q.den)
    (if q < 0 then ['-'] else [])
      ++ renderDecimal (dropTrailingZeros ds) ((ds.length : Int) - (j : Int))

/-- The escape `JSON.stringify` writes for one character of a string. -/
def quoteChar (c : Char) : List Char :=
  if c = '\"' then ['\\', '\"']
  else if c = '\\' then ['\\', '\\']
  else if c = '\x08' then ['\\', 'b']
  else if c = '\x0c' then ['\\', 'f']
  else if c = '\n' then ['\\', 'n']
  else if c = '\r' then ['\\', 'r']
  else if c = '\t' then ['\\', 't']
  else if c.toNat < 32 then
    ['\\', 'u', '0', '0', hexChar (c.toNat / 16), hexChar (c.toNat % 16)]
  else [c]

/-- The characters of a string with their escapes, without the quotes. -/
def quoteChars : List Char → List Char
  | [] => []
  | c :: cs => quoteChar c ++ quoteChars cs

/-- The quoted text `JSON.stringify` gives a string. -/
def quote (s : String) : List Char := '\"' :: (quoteChars s.data ++ ['\"'])

mutual
/-- The text `JSON.stringify` gives a value (no indentation). -/
def render : JSValue → List Char
  | JSValue.null => ['n', 'u', 'l', 'l']
  | JSValue.bool true => ['t', 'r', 'u', 'e']
  | JSValue.bool false => ['f', 'a', 'l', 's', 'e']
  | JSValue.num q => numberToString q
  | JSValue.str s => quote s
  | JSValue.arr [] => ['[', ']']
  | JSValue.arr (v :: vs) => '[' :: (render v ++ (renderItems vs ++ [']']))
  | JSValue.obj [] => ['\x7b', '\x7d']
  | JSValue.obj ((k, v) :: ms) =>
    '\x7b' :: (quote k ++ ':' :: (render v ++ (renderMembers ms ++ ['\x7d'])))
/-- The further items of an array, each after a comma. -/
def renderItems : List JSValue → List Char
  | [] => []
  | v :: vs => ',' :: (render v ++ renderItems vs)
/-- The further members of an object, each after a comma. -/
def renderMembers : List (String × JSValue) → List Char
  | [] => []
  | (k, v) :: ms => ',' :: (quote k ++ ':' :: (render v ++ renderMembers ms))
end

/-- JSON white space. -/
def isWhitespace (c : Char) : Bool := c = ' ' || c = '\t' || c = '\n' || c = '\r'

/-- The text after leading white space. -/
def skipWhitespace (cs : List Char) : List Char := cs.dropWhile isWhitespace

/-- The value of a hexadecimal digit. -/
def hexValue (c : Char) : Option Nat :=
  if '0' ≤ c ∧ c ≤ '9' then some (c.toNat - 48)
  else if 'a' ≤ c ∧ c ≤ 'f' then some (c.toNat - 87)
  else if 'A' ≤ c ∧ c ≤ 'F' then some (c.toNat - 55)
  else none

/-- The code unit of the four hexadecimal digits of a `\u` escape. -/
def hexValue4 (a b c d : Char) : Option Nat :=
  match hexValue a, hexValue b, hexValue c, hexValue d with
  | some a, some b, some c, some d => some (((a * 16 + b) * 16 + c) * 16 + d)
  | _, _, _, _ => none

/-- The character a one-letter escape stands for. -/
def unescape (c : Char) : Option Char :=
  if c = '\"' then some '\"'
  else if c = '\\' then some '\\'
  else if c = '/' then some '/'
  else if c = 'b' then some '\x08'
  else if c = 'f' then some '\x0c'
  else if c = 'n' then some '\n'
  else if c = 'r' then some '\r'
  else if c = 't' then some '\t'
  else none

/-- The code units of a string body up to its closing quote, and the text after
the quote.  A character written as itself gives its code point; an unescaped
control character is an error. -/
def parseStringUnits : List Char → Option (List Nat × List Char)
  | [] => none
  | c :: rest =>
    if c = '\"' then some ([], rest)
    else if c = '\\' then
      match rest with
      | [] => none
      | e :: rest2 =>
        if e = 'u' then
          match rest2 with
          | h1 :: h2 :: h3 :: h4 :: rest3 =>
            match hexValue4 h1 h2 h3 h4 with
            | none => none
            | some n => (parseStringUnits rest3).map (fun r => (n :: r.1, r.2))
          | _ => none
        else
          match unescape e with
          | none => none
          | some ch => (parseStringUnits rest2).map (fun r => (ch.toNat :: r.1, r.2))
    else if c.toNat < 32 then none
    else (parseStringUnits rest).map (fun r => (c.toNat :: r.1, r.2))

/-- The characters of a list of code units: a high surrogate followed by a low
one is one character; a surrogate on its own, which a Lean string cannot hold,
becomes U+FFFD. -/
def decodeUnits : List Nat → List Char
  | [] => []
  | [n] => [if 0xD800 ≤ n ∧ n ≤ 0xDFFF then Char.ofNat 0xFFFD else Char.ofNat n]
  | hi :: lo :: rest =>
    if 0xD800 ≤ hi ∧ hi ≤ 0xDBFF ∧ 0xDC00 ≤ lo ∧ lo ≤ 0xDFFF then
      Char.ofNat (0x10000 + (hi - 0xD800) * 0x400 + (lo - 0xDC00)) :: decodeUnits rest
    else
      (if 0xD800 ≤ hi ∧ hi ≤ 0xDFFF then Char.ofNat 0xFFFD else Char.ofNat hi)
        :: decodeUnits (lo :: rest)

/-- A string after its opening quote. -/
def parseString (cs : List Char) : Option (String × List Char) :=
  (parseStringUnits cs).map (fun r => (String.mk (decodeUnits r.1), r.2))

/-- The fraction part of a number: a point and at least one digit, or nothing. -/
def parseFraction : List Char → Option (List Char × List Char)
  | [] => some ([], [])
  | c :: rest =>
    if c = '.' then
      if rest.takeWhile Char.isDigit = [] then none
      else some (rest.takeWhile Char.isDigit, rest.dropWhile Char.isDigit)
    else some ([], c :: rest)

/-- The digits of an exponent after its sign: at least one. -/
def parseExponentDigits (negative : Bool) (cs : List Char) : Option (Int × List Char) :=
  if cs.takeWhile Char.isDigit = [] then none
  else
    some ((if negative then -1 else 1) * (digitsValue (cs.takeWhile Char.isDigit) : Int),
      cs.dropWhile Char.isDigit)

/-- The exponent part of a number: `e` or `E`, an optional sign and at least
one digit, or nothing. -/
def parseExponent : List Char → Option (Int × List Char)
  | [] => some (0, [])
  | c :: rest =>
    if c = 'e' ∨ c = 'E' then
      match rest with
      | [] => none
      | s :: rest2 =>
        if s = '-' then parseExponentDigits true rest2
        else if s = '+' then parseExponentDigits false rest2
        else parseExponentDigits false (s :: rest2)
    else some (0, c :: rest)

/-- A number without its sign: an integer part with no leading zero, then the
optional fraction and exponent. -/
def parseUnsigned (cs : List Char) : Option (ℚ × List Char) :=
  if cs.takeWhile Char.isDigit = [] then none
  else if (cs.takeWhile Char.isDigit).head? = some '0' ∧ 1 < (cs.takeWhile Char.isDigit).length
  then none
  else
    match parseFraction (cs.dropWhile Char.isDigit) with
    | none => none
    | some (fraction, rest) =>
      match parseExponent rest with
      | none => none
      | some (e, rest2) =>
        some ((digitsValue (cs.takeWhile Char.isDigit ++ fraction) : ℚ)
            * (10 : ℚ) ^ (e - (fraction.length : Int)), rest2)

/-- A JSON number. -/
def parseNumber : List Char → Option (ℚ × List Char)
  | [] => none
  | c :: rest =>
    if c = '-' then (parseUnsigned rest).map (fun r => (-r.1, r.2))
    else parseUnsigned (c :: rest)

/-- The text after the given word, when the text starts with it. -/
def parseWord (word : List Char) (cs : List Char) : Option (List Char) :=
  if word.isPrefixOf cs then some (cs.drop word.length) else none

mutual
/-- A JSON value, with leading white space, and the text after it.  The first
argument bounds the depth of the recursion. -/
def parseValue : Nat → List Char → Option (JSValue × List Char)
  | 0, _ => none
  | fuel + 1, cs =>
    match skipWhitespace cs with
    | [] => none
    | c :: rest =>
      if c = '\x7b' then
        match skipWhitespace rest with
        | [] => none
        | d :: rest2 =>
          if d = '\x7d' then some (JSValue.obj [], rest2)
          else (parseMembers fuel (d :: rest2)).map (fun r => (JSValue.obj r.1, r.2))
      else if c = '[' then
        match skipWhitespace rest with
        | [] => none
        | d :: rest2 =>
          if d = ']' then some (JSValue.arr [], rest2)
          else (parseElements fuel (d :: rest2)).map (fun r => (JSValue.arr r.1, r.2))
      else if c = '\"' then (parseString rest).map (fun r => (JSValue.str r.1, r.2))
      else if c = 'n' then
        (parseWord ['u', 'l', 'l'] rest).map (fun r => (JSValue.null, r))
      else if c = 't' then
        (parseWord ['r', 'u', 'e'] rest).map (fun r => (JSValue.bool true, r))
      else if c = 'f' then
        (parseWord ['a', 'l', 's', 'e'] rest).map (fun r => (JSValue.bool false, r))
      else (parseNumber (c :: rest)).map (fun r => (JSValue.num r.1, r.2))
/-- The items of an array after its opening bracket, up to the closing one. -/
def parseElements : Nat → List Char → Option (List JSValue × List Char)
  | 0, _ => none
  | fuel + 1, cs =>
    match parseValue fuel cs with
    | none => none
    | some (v, rest) =>
      match skipWhitespace rest with
      | [] => none
      | c :: rest2 =>
        if c = ',' then (parseElements fuel rest2).map (fun r => (v :: r.1, r.2))
        else if c = ']' then some ([v], rest2)
        else none
/-- The members of an object after its opening brace, up to the closing one. -/
def parseMembers : Nat → List Char → Option (List (String × JSValue) × List Char)
  | 0, _ => none
  | fuel + 1, cs =>
    match skipWhitespace cs with
    | [] => none
    | q :: rest =>
      if q = '\"' then
        match parseString rest with
        | none => none
        | some (key, rest2) =>
          match skipWhitespace rest2 with
          | [] => none
          | colon :: rest3 =>
            if colon = ':' then
              match parseValue fuel rest3 with
              | none => none
              | some (v, rest4) =>
                match skipWhitespace rest4 with
                | [] => none
                | c :: rest5 =>
                  if c = ',' then
                    (parseMembers fuel rest5).map (fun r => ((key, v) :: r.1, r.2))
                  else if c = '\x7d' then some ([(key, v)], rest5)
                  else none
            else none
      else none
end

/-- The function `JSON.stringify` on a value of the JSON fragment. -/
def JSON.stringify (v : JSValue) : String := String.mk (render v)

/-- The function `JSON.parse`: the value a text denotes, or `none` when the text
is not JSON and `JSON.parse` throws a `SyntaxError`. -/
def JSON.parse (text : String) : Option JSValue :=
  match parseValue (2 * text.data.length + 2) text.data with
  | none => none
  | some (v, rest) => if skipWhitespace rest = [] then some v else none

/-! ## The durable store and the two effects -/

/-- The browser store `localStorage`: a string, or nothing, under each key. -/
def Storage : Type := String → Option String

/-- The call `localStorage.getItem(key)`; `none` is `null`. -/
def Storage.getItem (localStorage : Storage) (key : String) : Option String :=
  localStorage key

/-- The call `localStorage.setItem(key, value)`. -/
def Storage.setItem (localStorage : Storage) (key value : String) : Storage :=
  fun k => if k = key then some value else localStorage k

/-- A transaction record as a JavaScript object: the members of the object
literal in `addTransaction`, in the order written there. -/
def Transaction.toJS (t : Transaction) : JSValue :=
  JSValue.obj
    [ ("id", JSValue.num t.id),
      ("description", JSValue.str t.description),
      ("amount", JSValue.num t.amount),
      ("type", JSValue.str t.type),
      ("category", JSValue.str t.category),
      ("date", JSValue.str t.date),
      ("timestamp", JSValue.num t.timestamp) ]

/-- The `transactions` state as a JavaScript value: the array of the records. -/
def transactionsToJS (transactions : List Transaction) : JSValue :=
  JSValue.arr (transactions.map Transaction.toJS)

/-- What the load effect does to the `transactions` state: it leaves it at its
initial value `[]`, it sets it to a parsed value, or `JSON.parse` throws and
the effect ends with that error. -/
inductive LoadOutcome where
  | kept : LoadOutcome
  | set (value : JSValue) : LoadOutcome
  | threw : LoadOutcome

/-- The effect that loads the transactions on mount (lines 13-19): the guard
`if (savedTransactions)` skips `null` and the empty string; anything else goes
to `JSON.parse`, outside any `try`. -/
def loadTransactions (localStorage : Storage) : LoadOutcome :=
  match localStorage.getItem "transactions" with
  | none => LoadOutcome.kept
  | some savedTransactions =>
    if savedTransactions = "" then LoadOutcome.kept
    else
      match JSON.parse savedTransactions with
      | none => LoadOutcome.threw
      | some value => LoadOutcome.set value

/-- The snapshot after the load effect, `none` when the effect threw. -/
def LoadOutcome.snapshot : LoadOutcome → Option JSValue
  | LoadOutcome.kept => some (JSValue.arr [])
  | LoadOutcome.set value => some value
  | LoadOutcome.threw => none

/-- The effect that saves the transactions whenever they change (lines 21-24). -/
def saveTransactions (transactions : List Transaction) (localStorage : Storage) : Storage :=
  localStorage.setItem "transactions" (JSON.stringify (transactionsToJS transactions))

/-- A store with nothing in it. -/
def emptyStorage : Storage := fun _ => none

/-- Two records with decimal amounts, used as a concrete input. -/
def sampleLedger : List Transaction :=
  [ { id := 1700000000001, description := "Salary", amount := 100.50, type := "income",
      category := "Salary", date := "2024-01-16", timestamp := 1700000000001 },
    { id := 1700000000000, description := "Coffee \"to go\"", amount := 30.25,
      type := "expense", category := "Food", date := "2024-01-15",
      timestamp := 1700000000000 } ]

/-- Two expenses whose amounts are the doubles `parseFloat` reads from the
texts `0.1` and `0.2`. -/
def roundingLedger : List Transaction :=
  [ { id := 1700000000000, description := "Tea", amount := 3602879701896397 / 36028797018963968,
      type := "expense", category := "Food", date := "2024-01-15", timestamp := 1700000000000 },
    { id := 1700000000001, description := "Bun", amount := 3602879701896397 / 18014398509481984,
      type := "expense", category := "Food", date := "2024-01-15", timestamp := 1700000000001 } ]

/-- An income of `1e20` and an expense of `1`. -/
def largeLedger : List Transaction :=
  [ { id := 1700000000000, description := "Sale", amount := 100000000000000000000,
      type := "income", category := "Other", date := "2024-01-15", timestamp := 1700000000000 },
    { id := 1700000000001, description := "Fee", amount := 1,
      type := "expense", category := "Bills", date := "2024-01-15", timestamp := 1700000000001 } ]

/-- A state whose ledger holds the two records of `sampleLedger`, dated
2024-01-16 and 2024-01-15. -/
def ledgerState : AppState :=
  { initialState "2024-02-01" with transactions := sampleLedger }

/-! ## Totals -/

theorem int_log_eq (q : ℚ) (e : ℤ) (hlo : (2 : ℚ) ^ e ≤ q) (hhi : q < (2 : ℚ) ^ (e + 1)) :
    Int.log 2 q = e := by
  have hpos : 0 < q := lt_of_lt_of_le (by positivity) hlo
  apply le_antisymm
  · have := (Int.lt_zpow_iff_log_lt (b := 2) (by norm_num) hpos).mp hhi
    omega
  · exact (Int.zpow_le_iff_le_log (b := 2) (by norm_num) hpos).mp hlo

theorem ulpExponent_eq (q : ℚ) (e : ℤ) (hlo : (2 : ℚ) ^ e ≤ |q|)
    (hhi : |q| < (2 : ℚ) ^ (e + 1)) : ulpExponent q = max (e - 52) (-1074) := by
  rw [ulpExponent, int_log_eq |q| e hlo hhi]

theorem roundHalfEven_eq (x : ℚ) (f : ℤ) (hlo : (f : ℚ) ≤ x) (hhi : x < (f : ℚ) + 1) :
    roundHalfEven x =
      if x - f < 1 / 2 then f
      else if 1 / 2 < x - f then f + 1
      else if f % 2 = 0 then f
      else f + 1 := by
  have hfloor : ⌊x⌋ = f := Int.floor_eq_iff.mpr ⟨hlo, hhi⟩
  simp only [roundHalfEven, hfloor]

theorem roundHalfEven_intCast (n : ℤ) : roundHalfEven (n : ℚ) = n := by
  rw [roundHalfEven_eq (n : ℚ) n le_rfl (by linarith)]
  simp

/-- The rounded integer is within one half of the argument. -/
theorem roundHalfEven_abs_sub_le (x : ℚ) : |(roundHalfEven x : ℚ) - x| ≤ 1 / 2 := by
  have hlo : ((⌊x⌋ : ℤ) : ℚ) ≤ x := Int.floor_le x
  have hhi : x < ((⌊x⌋ : ℤ) : ℚ) + 1 := Int.lt_floor_add_one x
  unfold roundHalfEven
  rw [abs_le]
  split_ifs with h1 h2 h3 <;> push_cast <;> constructor <;> linarith

/-- The double nearest to `q` is within half a unit in the last place of `q`. -/
theorem roundDouble_abs_sub_le (q : ℚ) :
    |roundDouble q - q| ≤ (2 : ℚ) ^ ulpExponent q / 2 := by
  have hpos : (0 : ℚ) < (2 : ℚ) ^ ulpExponent q := by positivity
  have h := roundHalfEven_abs_sub_le (q / (2 : ℚ) ^ ulpExponent q)
  have hq : roundDouble q - q
      = ((roundHalfEven (q / (2 : ℚ) ^ ulpExponent q) : ℚ) - q / (2 : ℚ) ^ ulpExponent q)
        * (2 : ℚ) ^ ulpExponent q := by
    unfold roundDouble
    field_simp
  rw [hq, abs_mul, abs_of_pos hpos]
  calc |(roundHalfEven (q / (2 : ℚ) ^ ulpExponent q) : ℚ) - q / (2 : ℚ) ^ ulpExponent q|
        * (2 : ℚ) ^ ulpExponent q
      ≤ 1 / 2 * (2 : ℚ) ^ ulpExponent q := by
        exact mul_le_mul_of_nonneg_right h hpos.le
    _ = (2 : ℚ) ^ ulpExponent q / 2 := by ring

theorem roundDouble_of_scaled (q : ℚ) (p n : ℤ) (hp : ulpExponent q = p)
    (hn : q = (n : ℚ) * (2 : ℚ) ^ p) : roundDouble q = q := by
  have hpos : (2 : ℚ) ^ p ≠ 0 := by positivity
  unfold roundDouble
  rw [hp]
  have hdiv : q / (2 : ℚ) ^ p = (n : ℚ) := by
    rw [hn]
    field_simp
  rw [hdiv, roundHalfEven_intCast, ← hn]

theorem roundDouble_zero : roundDouble 0 = 0 := by
  simp [roundDouble, roundHalfEven]

theorem isDouble_zero : IsDouble 0 := by
  refine ⟨roundDouble_zero, ?_⟩
  simp

theorem toDouble_of_isDouble (x : ℚ) (h : IsDouble x) : toDouble x = some x := by
  unfold toDouble
  rw [h.1, if_pos h.2]

theorem foldl_jsAdd_of_exact (xs : List ℚ) (acc : ℚ) (h : ExactFrom acc xs) :
    xs.foldl (fun sum x => jsAdd sum (some x)) (some acc) = some (acc + xs.sum) := by
  induction xs generalizing acc with
  | nil => simp
  | cons x xs ih =>
    obtain ⟨hx, hrest⟩ := h
    have hstep : jsAdd (some acc) (some x) = some (acc + x) := toDouble_of_isDouble _ hx
    rw [List.foldl_cons, hstep, ih _ hrest, List.sum_cons, add_assoc]

theorem foldl_jsAdd_amount (ts : List Transaction) (acc : Option ℚ) :
    ts.foldl (fun sum t => jsAdd sum (some t.amount)) acc
      = (ts.map (fun t => t.amount)).foldl (fun sum x => jsAdd sum (some x)) acc := by
  induction ts generalizing acc with
  | nil => rfl
  | cons t ts ih => simp only [List.foldl_cons, List.map_cons, ih]

theorem isDouble_of_bounds (q : ℚ) (e n : ℤ) (hlo : (2 : ℚ) ^ e ≤ |q|)
    (hhi : |q| < (2 : ℚ) ^ (e + 1)) (hn : q = (n : ℚ) * (2 : ℚ) ^ (max (e - 52) (-1074)))
    (hrange : |q| < (2 : ℚ) ^ (1024 : ℕ)) : IsDouble q :=
  ⟨roundDouble_of_scaled q _ n (ulpExponent_eq q e hlo hhi) hn, hrange⟩

theorem roundDouble_eval (q : ℚ) (e f : ℤ) (hlo : (2 : ℚ) ^ e ≤ |q|)
    (hhi : |q| < (2 : ℚ) ^ (e + 1))
    (hflo : (f : ℚ) ≤ q / (2 : ℚ) ^ (max (e - 52) (-1074)))
    (hfhi : q / (2 : ℚ) ^ (max (e - 52) (-1074)) < (f : ℚ) + 1) :
    roundDouble q =
      ((if q / (2 : ℚ) ^ (max (e - 52) (-1074)) - f < 1 / 2 then f
        else if 1 / 2 < q / (2 : ℚ) ^ (max (e - 52) (-1074)) - f then f + 1
        else if f % 2 = 0 then f
        else f + 1 : ℤ) : ℚ) * (2 : ℚ) ^ (max (e - 52) (-1074)) := by
  unfold roundDouble
  rw [ulpExponent_eq q e hlo hhi, roundHalfEven_eq _ f hflo hfhi]

theorem isDouble_100_50 : IsDouble (100.50 : ℚ) :=
  isDouble_of_bounds _ 6 (201 * 2 ^ 45) (by norm_num [abs_of_pos]) (by norm_num [abs_of_pos])
    (by norm_num) (by norm_num [abs_of_pos])

theorem isDouble_30_25 : IsDouble (30.25 : ℚ) :=
  isDouble_of_bounds _ 4 (121 * 2 ^ 46) (by norm_num [abs_of_pos]) (by norm_num [abs_of_pos])
    (by norm_num) (by norm_num [abs_of_pos])

theorem isDouble_70_25 : IsDouble (70.25 : ℚ) :=
  isDouble_of_bounds _ 6 (281 * 2 ^ 44) (by norm_num [abs_of_pos]) (by norm_num [abs_of_pos])
    (by norm_num) (by norm_num [abs_of_pos])

theorem calculateTotals_of_noRounding (ts : List Transaction) (h : NoRounding ts) :
    (calculateTotals ts).income
        = some ((ts.filter (fun t => t.type = "income")).map (fun t => t.amount)).sum
    ∧ (calculateTotals ts).expenses
        = some ((ts.filter (fun t => t.type = "expense")).map (fun t => t.amount)).sum
    ∧ (calculateTotals ts).balance
        = some (((ts.filter (fun t => t.type = "income")).map (fun t => t.amount)).sum
            - ((ts.filter (fun t => t.type = "expense")).map (fun t => t.amount)).sum) := by
  obtain ⟨hinc, hexp, hbal⟩ := h
  have h1 := foldl_jsAdd_of_exact _ 0 hinc
  have h2 := foldl_jsAdd_of_exact _ 0 hexp
  rw [zero_add] at h1 h2
  simp only [calculateTotals, foldl_jsAdd_amount, h1, h2, jsSub, toDouble_of_isDouble _ hbal]
  exact ⟨trivial, trivial, trivial⟩

theorem calculateTotals_income (ts : List Transaction) :
    (calculateTotals ts).income
      = ((ts.filter (fun t => t.type = "income")).map (fun t => t.amount)).foldl
          (fun sum x => jsAdd sum (some x)) (some 0) := by
  simp only [calculateTotals, foldl_jsAdd_amount]

theorem calculateTotals_expenses (ts : List Transaction) :
    (calculateTotals ts).expenses
      = ((ts.filter (fun t => t.type = "expense")).map (fun t => t.amount)).foldl
          (fun sum x => jsAdd sum (some x)) (some 0) := by
  simp only [calculateTotals, foldl_jsAdd_amount]

theorem calculateTotals_balance (ts : List Transaction) :
    (calculateTotals ts).balance
      = jsSub (calculateTotals ts).income (calculateTotals ts).expenses :=
  rfl

theorem foldl_jsAdd_singleton (x : ℚ) (h : IsDouble x) :
    [x].foldl (fun sum x => jsAdd sum (some x)) (some 0) = some x := by
  have hx : toDouble (0 + x) = some x := by
    rw [zero_add]
    exact toDouble_of_isDouble x h
  exact hx

theorem roundingLedger_amounts :
    (roundingLedger.filter (fun t => t.type = "expense")).map (fun t => t.amount)
      = [3602879701896397 / 36028797018963968, 3602879701896397 / 18014398509481984] :=
  rfl

theorem largeLedger_amounts :
    (largeLedger.filter (fun t => t.type = "income")).map (fun t => t.amount)
        = [100000000000000000000]
    ∧ (largeLedger.filter (fun t => t.type = "expense")).map (fun t => t.amount) = [1] :=
  ⟨rfl, rfl⟩

theorem sampleLedger_amounts :
    (sampleLedger.filter (fun t => t.type = "income")).map (fun t => t.amount) = [100.50]
    ∧ (sampleLedger.filter (fun t => t.type = "expense")).map (fun t => t.amount) = [30.25] :=
  ⟨rfl, rfl⟩

theorem roundDouble_tenth : roundDouble (1 / 10) = 3602879701896397 / 36028797018963968 := by
  rw [roundDouble_eval (1 / 10) (-4) 7205759403792793 (by norm_num [abs_of_pos])
    (by norm_num [abs_of_pos]) (by norm_num) (by norm_num)]
  norm_num

theorem roundDouble_fifth : roundDouble (2 / 10) = 3602879701896397 / 18014398509481984 := by
  rw [roundDouble_eval (2 / 10) (-3) 7205759403792793 (by norm_num [abs_of_pos])
    (by norm_num [abs_of_pos]) (by norm_num) (by norm_num)]
  norm_num

theorem isDouble_tenth : IsDouble (3602879701896397 / 36028797018963968 : ℚ) :=
  isDouble_of_bounds _ (-4) 7205759403792794 (by norm_num [abs_of_pos])
    (by norm_num [abs_of_pos]) (by norm_num) (by norm_num [abs_of_pos])

theorem toDouble_tenth_add_fifth :
    toDouble (3602879701896397 / 36028797018963968 + 3602879701896397 / 18014398509481984)
      = some (5404319552844596 / 18014398509481984) := by
  have hr : roundDouble (3602879701896397 / 36028797018963968
      + 3602879701896397 / 18014398509481984)
      = 5404319552844596 / 18014398509481984 := by
    rw [roundDouble_eval _ (-2) 5404319552844595 (by norm_num [abs_of_pos])
      (by norm_num [abs_of_pos]) (by norm_num) (by norm_num)]
    norm_num
  rw [toDouble, hr, if_pos (by norm_num [abs_of_pos])]

theorem isDouble_1e20 : IsDouble (100000000000000000000 : ℚ) :=
  isDouble_of_bounds _ 66 6103515625000000 (by norm_num [abs_of_pos])
    (by norm_num [abs_of_pos]) (by norm_num) (by norm_num [abs_of_pos])

theorem isDouble_one : IsDouble (1 : ℚ) :=
  isDouble_of_bounds _ 0 (2 ^ 52) (by norm_num) (by norm_num) (by norm_num) (by norm_num)

theorem toDouble_1e20_sub_one :
    toDouble (100000000000000000000 - 1) = some 100000000000000000000 := by
  have hr : roundDouble (100000000000000000000 - 1) = 100000000000000000000 := by
    rw [roundDouble_eval _ 66 6103515624999999 (by norm_num [abs_of_pos])
      (by norm_num [abs_of_pos]) (by norm_num) (by norm_num)]
    norm_num
  rw [toDouble, hr, if_pos (by norm_num [abs_of_pos])]

theorem roundingLedger_expenses :
    (calculateTotals roundingLedger).expenses = some (5404319552844596 / 18014398509481984) := by
  have hfirst : jsAdd (some 0) (some (3602879701896397 / 36028797018963968))
      = some (3602879701896397 / 36028797018963968) :=
    foldl_jsAdd_singleton _ isDouble_tenth
  rw [calculateTotals_expenses, roundingLedger_amounts, List.foldl_cons, List.foldl_cons,
    List.foldl_nil, hfirst]
  exact toDouble_tenth_add_fifth

theorem largeLedger_income :
    (calculateTotals largeLedger).income = some 100000000000000000000 := by
  rw [calculateTotals_income, largeLedger_amounts.1]
  exact foldl_jsAdd_singleton _ isDouble_1e20

theorem largeLedger_expenses : (calculateTotals largeLedger).expenses = some 1 := by
  rw [calculateTotals_expenses, largeLedger_amounts.2]
  exact foldl_jsAdd_singleton _ isDouble_one

theorem largeLedger_balance :
    (calculateTotals largeLedger).balance = some 100000000000000000000 := by
  have hb : (calculateTotals largeLedger).balance
      = jsSub (calculateTotals largeLedger).income (calculateTotals largeLedger).expenses :=
    rfl
  rw [hb, largeLedger_income, largeLedger_expenses]
  exact toDouble_1e20_sub_one

/-- C1, as stated, fails: the code adds and subtracts in double precision.  With
two expenses of amounts `0.1` and `0.2` (the doubles `parseFloat` reads from
these texts) the expense total is `0.30000000000000004`, not the sum of the two
amounts; with an income of `1e20` and an expense of `1` the balance is `1e20`,
not income minus expense. -/
theorem calculateTotals_rounds :
    roundDouble (1 / 10) = 3602879701896397 / 36028797018963968
    ∧ roundDouble (2 / 10) = 3602879701896397 / 18014398509481984
    ∧ (calculateTotals roundingLedger).expenses
        = some (5404319552844596 / 18014398509481984)
    ∧ (calculateTotals roundingLedger).expenses
        ≠ some (((roundingLedger.filter (fun t => t.type = "expense")).map
            (fun t => t.amount)).sum)
    ∧ (calculateTotals largeLedger).income = some 100000000000000000000
    ∧ (calculateTotals largeLedger).expenses = some 1
    ∧ (calculateTotals largeLedger).balance = some 100000000000000000000
    ∧ (calculateTotals largeLedger).balance ≠ some (100000000000000000000 - 1) := by
  refine ⟨roundDouble_tenth, roundDouble_fifth, roundingLedger_expenses, ?_, largeLedger_income,
    largeLedger_expenses, largeLedger_balance, ?_⟩
  · rw [roundingLedger_expenses, roundingLedger_amounts]
    norm_num
  · rw [largeLedger_balance]
    norm_num

/-- C1, amended: on every snapshot `calculateTotals` adds the income amounts,
and the expense amounts, in list order from 0 and subtracts the two totals, each
operation rounded to the nearest double; on every snapshot where no operation
rounds (each partial sum and the difference is a finite double) the income is
the sum of the amounts of the income records, the expenses are the sum of the
amounts of the expense records, and the balance is income minus expenses; the
empty snapshot gives 0, 0, 0; one income of 100.50 and one expense of 30.25
give 100.50, 30.25 and 70.25. -/
theorem calculateTotals_spec :
    (∀ ts : List Transaction,
      (calculateTotals ts).income
          = ((ts.filter (fun t => t.type = "income")).map (fun t => t.amount)).foldl
              (fun sum x => jsAdd sum (some x)) (some 0)
      ∧ (calculateTotals ts).expenses
          = ((ts.filter (fun t => t.type = "expense")).map (fun t => t.amount)).foldl
              (fun sum x => jsAdd sum (some x)) (some 0)
      ∧ (calculateTotals ts).balance
          = jsSub (calculateTotals ts).income (calculateTotals ts).expenses)
    ∧ (∀ ts : List Transaction, NoRounding ts →
      (calculateTotals ts).income
          = some ((ts.filter (fun t => t.type = "income")).map (fun t => t.amount)).sum
      ∧ (calculateTotals ts).expenses
          = some ((ts.filter (fun t => t.type = "expense")).map (fun t => t.amount)).sum
      ∧ (calculateTotals ts).balance
          = some (((ts.filter (fun t => t.type = "income")).map (fun t => t.amount)).sum
              - ((ts.filter (fun t => t.type = "expense")).map (fun t => t.amount)).sum))
    ∧ calculateTotals [] = { income := some 0, expenses := some 0, balance := some 0 }
    ∧ (∀ a b : Transaction,
        calculateTotals
            [{ a with type := "income", amount := 100.50 },
             { b with type := "expense", amount := 30.25 }]
          = { income := some 100.50, expenses := some 30.25, balance := some 70.25 }) := by
  have hzero : toDouble (0 - 0) = some 0 := by
    rw [sub_zero]
    exact toDouble_of_isDouble _ isDouble_zero
  refine ⟨fun ts => ⟨calculateTotals_income ts, calculateTotals_expenses ts,
    calculateTotals_balance ts⟩, calculateTotals_of_noRounding, ?_, ?_⟩
  · simp only [calculateTotals, List.filter, List.foldl, jsSub, hzero]
  · intro a b
    have hno : NoRounding [{ a with type := "income", amount := 100.50 },
        { b with type := "expense", amount := 30.25 }] := by
      simp only [NoRounding, List.filter, decide_True, decide_False, List.map, ExactFrom,
        List.sum_cons, List.sum_nil, zero_add, add_zero, and_true]
      refine ⟨isDouble_100_50, isDouble_30_25, ?_⟩
      have h := isDouble_70_25
      norm_num at h ⊢
      exact h
    obtain ⟨h1, h2, h3⟩ := calculateTotals_of_noRounding _ hno
    simp only [List.filter, decide_True, decide_False, List.map, List.sum_cons, List.sum_nil,
      add_zero] at h1 h2 h3
    generalize calculateTotals _ = totals at h1 h2 h3
    obtain ⟨income, expenses, balance⟩ := totals
    simp only at h1 h2 h3
    subst h1 h2 h3
    norm_num

theorem calculateTotals_spec_witness :
    NoRounding sampleLedger
    ∧ (calculateTotals sampleLedger).income = some 100.50
    ∧ (calculateTotals sampleLedger).expenses = some 30.25
    ∧ (calculateTotals sampleLedger).balance = some 70.25 := by
  have hno : NoRounding sampleLedger := by
    unfold NoRounding
    rw [sampleLedger_amounts.1, sampleLedger_amounts.2]
    refine ⟨⟨?_, trivial⟩, ⟨?_, trivial⟩, ?_⟩
    · rw [zero_add]; exact isDouble_100_50
    · rw [zero_add]; exact isDouble_30_25
    · have h := isDouble_70_25
      norm_num at h ⊢
      exact h
  have h := calculateTotals_spec.2.1 sampleLedger hno
  rw [sampleLedger_amounts.1, sampleLedger_amounts.2] at h
  refine ⟨hno, ?_, ?_, ?_⟩
  · rw [h.1]; norm_num
  · rw [h.2.1]; norm_num
  · rw [h.2.2]; norm_num

/-! ## Adding a record -/

theorem add_accepted_iff (L : AppState) (description : String) (amount : AmountField)
    (type category date : String) (c : Clock) :
    (add description amount type category date c L).alerts = []
      ↔ (description ≠ "" ∧ category ≠ "" ∧ ∃ q, amount = AmountField.text q) := by
  cases amount with
  | empty => simp [add, addTransaction]
  | text q =>
    by_cases hd : description = ""
    · simp [add, addTransaction, hd]
    · by_cases hc : category = ""
      · simp [add, addTransaction, hc]
      · simp [add, addTransaction, hd, hc]

/-- C2: for every ledger, an add with a non-empty description, a non-empty
category and a filled-in amount (exactly the adds the guard lets through, see
`add_accepted_iff`) is accepted, and the snapshot after it is the new record
followed by the previous ledger unchanged; the new record carries exactly the
supplied description, amount, type, category and date, whatever that date is
and whatever the dates of the records already in the ledger. -/
theorem add_prepends (L : AppState) (description : String) (q : ℚ)
    (type category date : String) (c : Clock)
    (hdescription : description ≠ "") (hcategory : category ≠ "") :
    (add description (AmountField.text q) type category date c L).alerts = []
    ∧ (add description (AmountField.text q) type category date c L).state.transactions
        = { id := c.now, description := description, amount := q, type := type,
            category := category, date := date, timestamp := c.getTime }
          :: L.transactions := by
  simp [add, addTransaction, hdescription, hcategory]

theorem add_prepends_witness :
    (add "Rent" (AmountField.text 950) "expense" "Bills" "2023-12-31"
        { now := 1700000000002, getTime := 1700000000003, today := "2024-02-01" }
        ledgerState).alerts = []
    ∧ (add "Rent" (AmountField.text 950) "expense" "Bills" "2023-12-31"
        { now := 1700000000002, getTime := 1700000000003, today := "2024-02-01" }
        ledgerState).state.transactions
        = { id := 1700000000002, description := "Rent", amount := 950, type := "expense",
            category := "Bills", date := "2023-12-31", timestamp := 1700000000003 }
          :: ledgerState.transactions :=
  add_prepends ledgerState "Rent" 950 "expense" "Bills" "2023-12-31"
    { now := 1700000000002, getTime := 1700000000003, today := "2024-02-01" }
    (by decide) (by decide)

/-- C4, as stated, fails: the add of "Coffee" with amount -5 is not rejected;
no alert is shown and a record with amount -5 is stored. -/
theorem add_negative_amount_accepted :
    ¬ ((0 : ℚ) < -5)
    ∧ (add "Coffee" (AmountField.text (-5)) "expense" "Food" "2024-01-01"
          { now := 1700000000000, getTime := 1700000000000, today := "2024-02-01" }
          (initialState "2024-02-01")).alerts = []
    ∧ (add "Coffee" (AmountField.text (-5)) "expense" "Food" "2024-01-01"
          { now := 1700000000000, getTime := 1700000000000, today := "2024-02-01" }
          (initialState "2024-02-01")).state.transactions
        = [{ id := 1700000000000, description := "Coffee", amount := -5, type := "expense",
             category := "Food", date := "2024-01-01", timestamp := 1700000000000 }] := by
  refine ⟨by norm_num, ?_, ?_⟩ <;> simp [add, addTransaction, initialState]

/-- C4, amended: for every ledger, an add whose description is empty, whose
category is empty or whose amount field is empty shows the alert and leaves the
snapshot unchanged; the amount is only checked for being filled in. -/
theorem add_rejects_empty_field (s : AppState) (description : String) (amount : AmountField)
    (type category date : String) (c : Clock)
    (hempty : description = "" ∨ category = "" ∨ amount = AmountField.empty) :
    (add description amount type category date c s).alerts = ["Please fill in all fields"]
    ∧ (add description amount type category date c s).state.transactions = s.transactions := by
  cases amount with
  | empty => simp [add, addTransaction]
  | text q =>
    have hg : description = "" ∨ category = "" := by
      rcases hempty with h | h | h
      · exact Or.inl h
      · exact Or.inr h
      · cases h
    simp [add, addTransaction, hg]

theorem add_rejects_empty_field_witness :
    (add "" (AmountField.text 10) "expense" "Food" "2024-01-01"
        { now := 1700000000000, getTime := 1700000000000, today := "2024-02-01" }
        (initialState "2024-02-01")).alerts = ["Please fill in all fields"]
    ∧ (add "" (AmountField.text 10) "expense" "Food" "2024-01-01"
        { now := 1700000000000, getTime := 1700000000000, today := "2024-02-01" }
        (initialState "2024-02-01")).state.transactions
      = (initialState "2024-02-01").transactions :=
  add_rejects_empty_field (initialState "2024-02-01") "" (AmountField.text 10) "expense" "Food"
    "2024-01-01" { now := 1700000000000, getTime := 1700000000000, today := "2024-02-01" }
    (Or.inl rfl)

/-! ## Removing a record -/

/-- C3: after `deleteTransaction id` no record of the snapshot has the given
id, the snapshot is the previous one with records left out (same records, same
relative order), and every record with another id is kept as often as it
occurred. -/
theorem deleteTransaction_spec (id : Int) (s : AppState) :
    (∀ t : Transaction, t ∈ (deleteTransaction id s).state.transactions ↔
        (t ∈ s.transactions ∧ t.id ≠ id))
    ∧ List.Sublist (deleteTransaction id s).state.transactions s.transactions
    ∧ (∀ t : Transaction, t.id ≠ id →
        (deleteTransaction id s).state.transactions.count t = s.transactions.count t) := by
  refine ⟨?_, ?_, ?_⟩
  · intro t
    simp [deleteTransaction, List.mem_filter]
  · exact List.filter_sublist _
  · intro t ht
    simp only [deleteTransaction]
    rw [List.count_filter]
    simpa using ht

/-- C9, as stated, fails: `deleteTransaction` with an id that no record
carries does not return `false`; it returns nothing (`undefined`). -/
theorem deleteTransaction_missing_returns_undefined :
    (deleteTransaction 7 (initialState "2024-02-01")).returned ≠ some (JSValue.bool false)
    ∧ (deleteTransaction 7 (initialState "2024-02-01")).returned = none := by
  simp [deleteTransaction]

/-- C9, amended: for every ledger and every id that no record carries,
`deleteTransaction id` returns no value, shows no alert, and leaves the state,
and so the snapshot with its length and contents, unchanged. -/
theorem deleteTransaction_missing (id : Int) (s : AppState)
    (hmissing : ∀ t ∈ s.transactions, t.id ≠ id) :
    (deleteTransaction id s).returned = none
    ∧ (deleteTransaction id s).alerts = []
    ∧ (deleteTransaction id s).state = s := by
  refine ⟨rfl, rfl, ?_⟩
  have hfilter : s.transactions.filter (fun t => t.id ≠ id) = s.transactions := by
    rw [List.filter_eq_self]
    intro t ht
    simpa using hmissing t ht
  simp only [deleteTransaction, hfilter]

theorem deleteTransaction_missing_witness :
    (∀ t ∈ sampleState.transactions, t.id ≠ 7)
    ∧ (deleteTransaction 7 sampleState).returned = none
    ∧ (deleteTransaction 7 sampleState).alerts = []
    ∧ (deleteTransaction 7 sampleState).state = sampleState :=
  ⟨by simp [sampleState], deleteTransaction_missing 7 sampleState (by simp [sampleState])⟩

/-! ## Filtering by type -/

theorem filteredTransactions_of_type (ts : List Transaction) (k : String) (hk : k ≠ "all") :
    (∀ t : Transaction, t ∈ filteredTransactions ts k ↔ (t ∈ ts ∧ t.type = k))
    ∧ List.Sublist (filteredTransactions ts k) ts
    ∧ (∀ t : Transaction, t.type = k → (filteredTransactions ts k).count t = ts.count t) := by
  refine ⟨?_, ?_, ?_⟩
  · intro t
    simp [filteredTransactions, hk, List.mem_filter]
  · exact List.filter_sublist _
  · intro t ht
    simp only [filteredTransactions]
    rw [List.count_filter]
    simp [hk, ht]

/-- C10: with the filter "all" the filtered list is the snapshot itself; with
the filter "income" (and likewise "expense") it holds exactly the records of
that type, each as often as in the snapshot, in their original relative
order. -/
theorem filteredTransactions_spec (ts : List Transaction) :
    filteredTransactions ts "all" = ts
    ∧ ((∀ t : Transaction, t ∈ filteredTransactions ts "income" ↔
          (t ∈ ts ∧ t.type = "income"))
      ∧ List.Sublist (filteredTransactions ts "income") ts
      ∧ (∀ t : Transaction, t.type = "income" →
          (filteredTransactions ts "income").count t = ts.count t))
    ∧ ((∀ t : Transaction, t ∈ filteredTransactions ts "expense" ↔
          (t ∈ ts ∧ t.type = "expense"))
      ∧ List.Sublist (filteredTransactions ts "expense") ts
      ∧ (∀ t : Transaction, t.type = "expense" →
          (filteredTransactions ts "expense").count t = ts.count t)) := by
  refine ⟨?_, filteredTransactions_of_type ts "income" (by decide),
    filteredTransactions_of_type ts "expense" (by decide)⟩
  simp [filteredTransactions]

/-! ## Identifiers over sequences of operations -/

/-- C7 fails on the code: two adds that read the same clock value leave two
records with the same id in the snapshot. -/
theorem same_tick_adds_share_id :
    (∀ op ∈ sameTickAdds, op.validAdd)
    ∧ ((run (initialState "2024-02-01") sameTickAdds).transactions.map (fun t => t.id))
        = [1700000000000, 1700000000000]
    ∧ ¬ ((run (initialState "2024-02-01") sameTickAdds).transactions.map
          (fun t => t.id)).Nodup := by
  refine ⟨?_, ?_, ?_⟩
  · simp [sameTickAdds, Op.validAdd]
    norm_num
  · simp [run, step, add, addTransaction, sameTickAdds, initialState]
  · simp [run, step, add, addTransaction, sameTickAdds, initialState]

/-- C8 fails on the code: after two adds that read the same clock value, one
remove of that id empties the snapshot, while the number of adds minus the
number of successful removes is 1. -/
theorem same_tick_remove_drops_two :
    (∀ op ∈ sameTickAdds ++ [Op.remove 1700000000000], op.validAdd)
    ∧ (run (initialState "2024-02-01")
        (sameTickAdds ++ [Op.remove 1700000000000])).transactions.length = 0
    ∧ countAdds (sameTickAdds ++ [Op.remove 1700000000000]) = 2
    ∧ countSuccessfulRemoves (initialState "2024-02-01")
        (sameTickAdds ++ [Op.remove 1700000000000]) = 1 := by
  refine ⟨?_, ?_, ?_, ?_⟩
  · simp [sameTickAdds, Op.validAdd]
    norm_num
  · simp [run, step, add, addTransaction, deleteTransaction, sameTickAdds, initialState]
  · simp [countAdds, sameTickAdds]
  · simp [countSuccessfulRemoves, step, add, addTransaction, deleteTransaction, sameTickAdds,
      initialState]

/-! ### What holds when the clock readings are fresh -/

theorem add_valid_transactions (s : AppState) (description : String) (q : ℚ)
    (type category date : String) (c : Clock) (hd : description ≠ "") (hc : category ≠ "") :
    (add description (AmountField.text q) type category date c s).state.transactions
      = { id := c.now, description := description, amount := q, type := type,
          category := category, date := date, timestamp := c.getTime } :: s.transactions := by
  simp [add, addTransaction, hd, hc]

theorem add_transactions_cases (s : AppState) (description : String) (amount : AmountField)
    (type category date : String) (c : Clock) :
    (add description amount type category date c s).state.transactions = s.transactions
    ∨ ∃ r : Transaction, r.id = c.now ∧
        (add description amount type category date c s).state.transactions
          = r :: s.transactions := by
  cases amount with
  | empty => left; simp [add, addTransaction]
  | text q =>
    by_cases hg : description = "" ∨ category = ""
    · left; simp [add, addTransaction, hg]
    · right
      exact ⟨{ id := c.now, description := description, amount := q, type := type,
               category := category, date := date, timestamp := c.getTime }, rfl,
        by simp [add, addTransaction, hg]⟩

theorem filter_id_length_of_nodup (id : Int) (ts : List Transaction)
    (hnodup : (ts.map (fun t => t.id)).Nodup) :
    (ts.filter (fun t => t.id ≠ id)).length
        + (if ts.any (fun t => t.id = id) then 1 else 0) = ts.length := by
  induction ts with
  | nil => simp
  | cons t ts ih =>
    rw [List.map_cons, List.nodup_cons] at hnodup
    have ih := ih hnodup.2
    by_cases h : t.id = id
    · have hnot : ∀ u ∈ ts, u.id ≠ id := by
        intro u hu hid
        exact hnodup.1 (List.mem_map.mpr ⟨u, hu, by rw [hid, h]⟩)
      have hfilter : ts.filter (fun u => u.id ≠ id) = ts := by
        rw [List.filter_eq_self]
        intro u hu
        simpa using hnot u hu
      simp [List.filter_cons, h, hfilter]
      exact hnot
    · by_cases hany : ts.any (fun u => u.id = id) = true
      · simp [List.filter_cons, h, hany] at ih ⊢
        omega
      · simp [List.filter_cons, h, hany] at ih ⊢
        simpa using ih

/-- When every add reads a clock value not yet used as an id in the ledger,
identifiers stay pairwise distinct over any sequence of operations. -/
theorem run_ids_nodup_of_fresh (ops : List Op) (s : AppState)
    (hnodup : (s.transactions.map (fun t => t.id)).Nodup) (hfresh : FreshIds s ops) :
    ((run s ops).transactions.map (fun t => t.id)).Nodup := by
  induction ops generalizing s with
  | nil => simpa [run] using hnodup
  | cons op ops ih =>
    have hrun : run s (op :: ops) = run (step s op) ops := rfl
    rw [hrun]
    cases op with
    | add description amount type category date c =>
      obtain ⟨hnew, hrest⟩ := hfresh
      apply ih _ _ hrest
      rcases add_transactions_cases s description amount type category date c with h | ⟨r, hr, h⟩
      · simpa [step, h] using hnodup
      · simp only [step, h, List.map_cons, List.nodup_cons]
        refine ⟨?_, hnodup⟩
        intro hmem
        obtain ⟨t, ht, hid⟩ := List.mem_map.mp hmem
        exact hnew t ht (by rw [hid, hr])
    | remove id =>
      apply ih _ _ hfresh
      simp only [step, deleteTransaction]
      exact (List.filter_sublist _).map _ |>.nodup hnodup

/-- When every add has valid inputs and reads a clock value not yet used as an
id in the ledger, the snapshot grows by one on each add and shrinks by exactly
one on each successful remove. -/
theorem run_length_of_fresh (ops : List Op) (s : AppState)
    (hnodup : (s.transactions.map (fun t => t.id)).Nodup) (hfresh : FreshIds s ops)
    (hvalid : ∀ op ∈ ops, op.validAdd) :
    (run s ops).transactions.length + countSuccessfulRemoves s ops
      = s.transactions.length + countAdds ops := by
  induction ops generalizing s with
  | nil => simp [run, countSuccessfulRemoves, countAdds]
  | cons op ops ih =>
    have hrun : run s (op :: ops) = run (step s op) ops := rfl
    have hnext := run_ids_nodup_of_fresh [op] s hnodup
    rw [hrun]
    cases op with
    | add description amount type category date c =>
      obtain ⟨hnew, hrest⟩ := hfresh
      have hv := hvalid _ (List.mem_cons_self _ _)
      obtain ⟨hd, hc, q, rfl, _⟩ := hv
      have hstep := add_valid_transactions s description q type category date c hd hc
      have hih := ih (step s (Op.add description (AmountField.text q) type category date c))
        (hnext ⟨hnew, trivial⟩) hrest (fun op hop => hvalid op (List.mem_cons_of_mem _ hop))
      simp only [countSuccessfulRemoves, countAdds]
      rw [hih]
      simp only [step, hstep, List.length_cons]
      omega
    | remove id =>
      have hih := ih (step s (Op.remove id)) (hnext trivial) hfresh
        (fun op hop => hvalid op (List.mem_cons_of_mem _ hop))
      have hlen := filter_id_length_of_nodup id s.transactions hnodup
      simp only [countSuccessfulRemoves, countAdds]
      simp only [step, deleteTransaction] at hih hlen ⊢
      omega

/-! ## Digits -/

theorem digitChar_spec (d : Nat) (h : d < 10) :
    (digitChar d).toNat - 48 = d ∧ (digitChar d).isDigit = true := by
  interval_cases d <;> exact ⟨rfl, rfl⟩

theorem digitChar_eq_zero_iff (d : Nat) (h : d < 10) : digitChar d = '0' ↔ d = 0 := by
  interval_cases d <;> decide

theorem foldl_digits (ds : List Char) (acc : Nat) :
    ds.foldl (fun acc c => 10 * acc + (c.toNat - 48)) acc
      = acc * 10 ^ ds.length + digitsValue ds := by
  induction ds generalizing acc with
  | nil => simp [digitsValue]
  | cons c cs ih =>
    simp only [digitsValue, List.foldl_cons, List.length_cons]
    rw [ih, ih (10 * 0 + (c.toNat - 48))]
    simp only [digitsValue]
    ring

theorem digitsValue_append (xs ys : List Char) :
    digitsValue (xs ++ ys) = digitsValue xs * 10 ^ ys.length + digitsValue ys := by
  unfold digitsValue
  rw [List.foldl_append, foldl_digits]
  rfl

theorem digitsValue_replicate_zero (m : Nat) : digitsValue (List.replicate m '0') = 0 := by
  induction m with
  | zero => rfl
  | succ m ih =>
    rw [List.replicate_succ']
    rw [digitsValue_append, ih]
    rfl

theorem digitsValue_natDigitsAux (fuel n : Nat) (h : n ≤ fuel) :
    digitsValue (natDigitsAux fuel n) = n := by
  induction fuel generalizing n with
  | zero =>
    have : n = 0 := by omega
    subst this
    rfl
  | succ fuel ih =>
    unfold natDigitsAux
    split
    · next h0 => subst h0; rfl
    · next h0 =>
      rw [digitsValue_append, ih (n / 10) (by omega)]
      have := (digitChar_spec (n % 10) (Nat.mod_lt _ (by norm_num))).1
      simp only [digitsValue, List.foldl_cons, List.foldl_nil, List.length_singleton, this]
      omega

theorem natDigitsAux_isDigit (fuel n : Nat) :
    ∀ c ∈ natDigitsAux fuel n, c.isDigit = true := by
  induction fuel generalizing n with
  | zero => intro c hc; simp [natDigitsAux] at hc
  | succ fuel ih =>
    intro c hc
    unfold natDigitsAux at hc
    split at hc
    · simp at hc
    · rcases List.mem_append.mp hc with h | h
      · exact ih _ c h
      · rw [List.mem_singleton] at h
        rw [h]
        exact (digitChar_spec (n % 10) (Nat.mod_lt _ (by norm_num))).2

theorem natDigitsAux_head (fuel n : Nat) (h : n ≤ fuel) (hn : n ≠ 0) :
    ∃ c cs, natDigitsAux fuel n = c :: cs ∧ c ≠ '0' := by
  induction fuel generalizing n with
  | zero => omega
  | succ fuel ih =>
    unfold natDigitsAux
    rw [if_neg hn]
    by_cases h10 : n / 10 = 0
    · refine ⟨digitChar (n % 10), [], ?_, ?_⟩
      · have : natDigitsAux fuel (n / 10) = [] := by
          rw [h10]
          cases fuel <;> simp [natDigitsAux]
        rw [this]
        rfl
      · intro hz
        have := (digitChar_eq_zero_iff (n % 10) (Nat.mod_lt _ (by norm_num))).mp hz
        omega
    · obtain ⟨c, cs, hcs, hc⟩ := ih (n / 10) (by omega) h10
      exact ⟨c, cs ++ [digitChar (n % 10)], by rw [hcs]; rfl, hc⟩

theorem natToString_spec (n : Nat) :
    digitsValue (natToString n) = n ∧ (∀ c ∈ natToString n, c.isDigit = true)
      ∧ natToString n ≠ [] := by
  unfold natToString
  split
  · next h => subst h; exact ⟨rfl, by simp, by simp⟩
  · next h =>
    refine ⟨digitsValue_natDigitsAux n n le_rfl, natDigitsAux_isDigit n n, ?_⟩
    obtain ⟨c, cs, hcs, _⟩ := natDigitsAux_head n n le_rfl h
    simp [natDigits, hcs]

theorem dropTrailingZeros_spec (ds : List Char) :
    ds = dropTrailingZeros ds
      ++ List.replicate (ds.length - (dropTrailingZeros ds).length) '0' := by
  have hsplit := List.takeWhile_append_dropWhile (fun c => decide (c = '0')) ds.reverse
  have hrev : ds = (ds.reverse.dropWhile (fun c => decide (c = '0'))).reverse
      ++ (ds.reverse.takeWhile (fun c => decide (c = '0'))).reverse := by
    rw [← List.reverse_append, hsplit, List.reverse_reverse]
  have hzeros : (ds.reverse.takeWhile (fun c => decide (c = '0'))).reverse
      = List.replicate (ds.reverse.takeWhile (fun c => decide (c = '0'))).length '0' := by
    rw [List.eq_replicate_iff]
    refine ⟨by simp, ?_⟩
    intro c hc
    rw [List.mem_reverse] at hc
    simpa using List.mem_takeWhile_imp hc
  have hlen : ds.length = (dropTrailingZeros ds).length
      + (ds.reverse.takeWhile (fun c => decide (c = '0'))).length := by
    have := congrArg List.length hrev
    simpa [dropTrailingZeros] using this
  have hz : ds.length - (dropTrailingZeros ds).length
      = (ds.reverse.takeWhile (fun c => decide (c = '0'))).length := by omega
  rw [hz, ← hzeros]
  exact hrev

/-! ## Reading back a printed number -/

theorem span_digits (ds : List Char) (c : Char) (cs : List Char)
    (hds : ∀ d ∈ ds, d.isDigit = true) (hc : c.isDigit = false) :
    (ds ++ c :: cs).takeWhile Char.isDigit = ds
      ∧ (ds ++ c :: cs).dropWhile Char.isDigit = c :: cs := by
  induction ds with
  | nil => simp [List.takeWhile, List.dropWhile, hc]
  | cons d ds ih =>
    have hd : d.isDigit = true := hds d (List.mem_cons_self _ _)
    have ih := ih (fun x hx => hds x (List.mem_cons_of_mem _ hx))
    simp [List.takeWhile, List.dropWhile, hd, ih.1, ih.2]

theorem parseFraction_none (c : Char) (cs : List Char) (hdot : c ≠ '.') :
    parseFraction (c :: cs) = some ([], c :: cs) := by
  simp [parseFraction, hdot]

theorem parseFraction_digits (fr : List Char) (t : Char) (tl : List Char)
    (hfr : ∀ d ∈ fr, d.isDigit = true) (hne : fr ≠ []) (ht : t.isDigit = false) :
    parseFraction ('.' :: (fr ++ t :: tl)) = some (fr, t :: tl) := by
  have h := span_digits fr t tl hfr ht
  simp [parseFraction, h.1, h.2, hne]

theorem parseExponent_none (c : Char) (cs : List Char) (he : c ≠ 'e') (hE : c ≠ 'E') :
    parseExponent (c :: cs) = some (0, c :: cs) := by
  simp [parseExponent, he, hE]

theorem parseExponentDigits_natToString (negative : Bool) (a : Nat) (t : Char) (tl : List Char)
    (ht : t.isDigit = false) :
    parseExponentDigits negative (natToString a ++ t :: tl)
      = some ((if negative then -1 else 1) * (a : Int), t :: tl) := by
  obtain ⟨hval, hdig, hne⟩ := natToString_spec a
  have h := span_digits (natToString a) t tl hdig ht
  simp [parseExponentDigits, h.1, h.2, hne, hval]

theorem parseExponent_rendered (e : Int) (t : Char) (tl : List Char) (ht : t.isDigit = false) :
    parseExponent ('e' :: (if e < 0 then '-' else '+') :: (natToString e.natAbs ++ t :: tl))
      = some (e, t :: tl) := by
  by_cases he : e < 0
  · simp only [parseExponent, he, if_true, true_or]
    rw [parseExponentDigits_natToString true _ t tl ht]
    simp only [if_true]
    congr 2
    omega
  · have hplus : ('+' : Char) ≠ '-' := by decide
    simp only [parseExponent, he, if_false, true_or, if_true, hplus]
    rw [parseExponentDigits_natToString false _ t tl ht]
    simp only [Bool.false_eq_true, if_false]
    congr 2
    omega

theorem parseUnsigned_of_parts (intDs fraction tl rest rest2 : List Char) (t : Char) (e : Int)
    (hint : ∀ d ∈ intDs, d.isDigit = true) (hne : intDs ≠ [])
    (hlead : ¬ (intDs.head? = some '0' ∧ 1 < intDs.length)) (ht : t.isDigit = false)
    (hfrac : parseFraction (t :: tl) = some (fraction, rest))
    (hexp : parseExponent rest = some (e, rest2)) :
    parseUnsigned (intDs ++ t :: tl)
      = some ((digitsValue (intDs ++ fraction) : ℚ) * (10 : ℚ) ^ (e - (fraction.length : Int)),
          rest2) := by
  have h := span_digits intDs t tl hint ht
  unfold parseUnsigned
  rw [h.1, h.2, if_neg hne, if_neg hlead, hfrac]
  simp only [hexp]

theorem parseUnsigned_renderDecimal (n : Int) (t d0 : Char) (tl ds0 : List Char)
    (hsig : ∀ d ∈ d0 :: ds0, d.isDigit = true) (hd0 : d0 ≠ '0')
    (ht : t.isDigit = false) (hdot : t ≠ '.') (he : t ≠ 'e') (hE : t ≠ 'E') :
    parseUnsigned (renderDecimal (d0 :: ds0) n ++ t :: tl)
      = some ((digitsValue (d0 :: ds0) : ℚ) * (10 : ℚ) ^ (n - ((d0 :: ds0).length : Int)),
          t :: tl) := by
  have hd0digit : d0.isDigit = true := hsig d0 (List.mem_cons_self _ _)
  have hds0 : ∀ d ∈ ds0, d.isDigit = true := fun d hd => hsig d (List.mem_cons_of_mem _ hd)
  have hdotDigit : ('.' : Char).isDigit = false := by decide
  have heDigit : ('e' : Char).isDigit = false := by decide
  have hten : (10 : ℚ) ≠ 0 := by norm_num
  have hlen : (d0 :: ds0).length = ds0.length + 1 := rfl
  unfold renderDecimal
  by_cases h1 : ((d0 :: ds0).length : Int) ≤ n ∧ n ≤ 21
  · -- plain digits followed by zeros
    rw [if_pos h1]
    have hz : ∀ d ∈ d0 :: ds0 ++ List.replicate (n - ((d0 :: ds0).length : Int)).toNat '0',
        d.isDigit = true := by
      intro d hd
      rcases List.mem_append.mp hd with h | h
      · exact hsig d h
      · rw [List.eq_of_mem_replicate h]; decide
    rw [parseUnsigned_of_parts _ [] tl (t :: tl) (t :: tl) t 0 hz (by simp)
      (by simp [hd0]) ht (parseFraction_none t tl hdot) (parseExponent_none t tl he hE)]
    congr 2
    rw [List.append_nil, digitsValue_append, digitsValue_replicate_zero, List.length_replicate]
    have hnn : (0 : Int) ≤ n - ((d0 :: ds0).length : Int) := by omega
    push_cast
    rw [add_zero, ← zpow_natCast, Int.toNat_of_nonneg hnn]
    simp
  rw [if_neg h1]
  by_cases h2 : 0 < n ∧ n ≤ 21
  · -- a decimal point inside the digits
    rw [if_pos h2]
    have hlt : n.toNat < (d0 :: ds0).length := by
      have : ¬ ((d0 :: ds0).length : Int) ≤ n := fun hle => h1 ⟨hle, h2.2⟩
      omega
    have hpos : 0 < n.toNat := by omega
    have htake : ∀ d ∈ (d0 :: ds0).take n.toNat, d.isDigit = true :=
      fun d hd => hsig d (List.mem_of_mem_take hd)
    have hdrop : ∀ d ∈ (d0 :: ds0).drop n.toNat, d.isDigit = true :=
      fun d hd => hsig d (List.mem_of_mem_drop hd)
    have hdropne : (d0 :: ds0).drop n.toNat ≠ [] := by
      intro hnil
      have := congrArg List.length hnil
      rw [List.length_drop] at this
      simp at this
      omega
    have hassoc : (List.take n.toNat (d0 :: ds0) ++ '.' :: List.drop n.toNat (d0 :: ds0)) ++ t :: tl
        = List.take n.toNat (d0 :: ds0) ++ '.' :: (List.drop n.toNat (d0 :: ds0) ++ t :: tl) := by
      simp
    rw [hassoc, parseUnsigned_of_parts _ ((d0 :: ds0).drop n.toNat) _ (t :: tl) (t :: tl) '.' 0
      htake (by
        obtain ⟨m, hm⟩ : ∃ m, n.toNat = m + 1 := ⟨n.toNat - 1, by omega⟩
        simp [hm])
      (by
        obtain ⟨m, hm⟩ : ∃ m, n.toNat = m + 1 := ⟨n.toNat - 1, by omega⟩
        simp [hm, hd0])
      hdotDigit (parseFraction_digits _ t tl hdrop hdropne ht) (parseExponent_none t tl he hE)]
    congr 2
    rw [List.take_append_drop, List.length_drop]
    have hexp : (0 : Int) - (((d0 :: ds0).length - n.toNat : Nat) : Int)
        = n - ((d0 :: ds0).length : Int) := by omega
    rw [hexp]
  rw [if_neg h2]
  by_cases h3 : -6 < n ∧ n ≤ 0
  · -- leading zeros after the point
    rw [if_pos h3]
    have hfr : ∀ d ∈ List.replicate (-n).toNat '0' ++ d0 :: ds0, d.isDigit = true := by
      intro d hd
      rcases List.mem_append.mp hd with h | h
      · rw [List.eq_of_mem_replicate h]; decide
      · exact hsig d h
    have hassoc : ('0' :: '.' :: (List.replicate (-n).toNat '0' ++ d0 :: ds0)) ++ t :: tl
        = ['0'] ++ '.' :: ((List.replicate (-n).toNat '0' ++ d0 :: ds0) ++ t :: tl) := by
      simp
    rw [hassoc, parseUnsigned_of_parts ['0'] (List.replicate (-n).toNat '0' ++ d0 :: ds0) _
      (t :: tl) (t :: tl) '.' 0 (by simp) (by simp) (by simp) hdotDigit
      (parseFraction_digits _ t tl hfr (by simp) ht) (parseExponent_none t tl he hE)]
    congr 2
    rw [digitsValue_append, digitsValue_append, digitsValue_replicate_zero]
    have hzero : digitsValue ['0'] = 0 := rfl
    rw [hzero, List.length_append, List.length_replicate]
    simp only [zero_mul, zero_add]
    have hexp : (0 : Int) - (((-n).toNat + (d0 :: ds0).length : Nat) : Int)
        = n - ((d0 :: ds0).length : Int) := by omega
    rw [hexp]
  · -- exponent form
    rw [if_neg h3]
    cases ds0 with
    | nil =>
      have hassoc : (d0 :: 'e' :: (if n - 1 < 0 then '-' else '+')
            :: natToString (n - 1).natAbs) ++ t :: tl
          = [d0] ++ 'e' :: (if n - 1 < 0 then '-' else '+')
            :: (natToString (n - 1).natAbs ++ t :: tl) := by
        simp
      simp only []
      rw [hassoc, parseUnsigned_of_parts [d0] [] _ _ (t :: tl) 'e' (n - 1) (by simpa using hd0digit)
        (by simp) (by simp) heDigit (parseFraction_none 'e' _ (by decide))
        (parseExponent_rendered (n - 1) t tl ht)]
      congr 2
      simp
    | cons d1 ds1 =>
      have hassoc : (d0 :: '.' :: ((d1 :: ds1) ++ 'e' :: (if n - 1 < 0 then '-' else '+')
            :: natToString (n - 1).natAbs)) ++ t :: tl
          = [d0] ++ '.' :: ((d1 :: ds1) ++ 'e' :: (if n - 1 < 0 then '-' else '+')
            :: (natToString (n - 1).natAbs ++ t :: tl)) := by
        simp
      simp only []
      rw [hassoc, parseUnsigned_of_parts [d0] (d1 :: ds1) _ _ (t :: tl) '.' (n - 1)
        (by simpa using hd0digit) (by simp) (by simp) hdotDigit
        (parseFraction_digits (d1 :: ds1) 'e' _ hds0 (by simp) heDigit)
        (parseExponent_rendered (n - 1) t tl ht)]
      congr 2
      simp only [List.singleton_append, List.length_cons]
      have hexp : n - 1 - ((ds1.length + 1 : Nat) : Int)
          = n - ((ds1.length + 1 + 1 : Nat) : Int) := by omega
      rw [hexp]

theorem decimalPlacesFrom_dvd (den fuel j : Nat) (h : den ∣ 10 ^ (j + fuel)) :
    den ∣ 10 ^ decimalPlacesFrom den fuel j := by
  induction fuel generalizing j with
  | zero => simpa [decimalPlacesFrom] using h
  | succ fuel ih =>
    unfold decimalPlacesFrom
    split
    · next hd => exact hd
    · exact ih (j + 1) (by rwa [show j + 1 + fuel = j + (fuel + 1) by omega])

theorem decimalPlaces_dvd (q : ℚ) (hq : IsDecimal q) : q.den ∣ 10 ^ decimalPlaces q.den := by
  unfold decimalPlaces
  apply decimalPlacesFrom_dvd
  simpa [IsDecimal] using hq

theorem renderDecimal_head (n : Int) (d0 : Char) (ds0 : List Char) (hd0 : d0.isDigit = true) :
    ∃ h tl, renderDecimal (d0 :: ds0) n = h :: tl ∧ h.isDigit = true := by
  unfold renderDecimal
  by_cases h1 : ((d0 :: ds0).length : Int) ≤ n ∧ n ≤ 21
  · rw [if_pos h1]
    exact ⟨d0, _, rfl, hd0⟩
  rw [if_neg h1]
  by_cases h2 : 0 < n ∧ n ≤ 21
  · rw [if_pos h2]
    obtain ⟨m, hm⟩ : ∃ m, n.toNat = m + 1 := ⟨n.toNat - 1, by omega⟩
    rw [hm]
    exact ⟨d0, _, rfl, hd0⟩
  rw [if_neg h2]
  by_cases h3 : -6 < n ∧ n ≤ 0
  · rw [if_pos h3]
    exact ⟨'0', _, rfl, by decide⟩
  rw [if_neg h3]
  cases ds0 with
  | nil => exact ⟨d0, _, rfl, hd0⟩
  | cons d1 ds1 => exact ⟨d0, _, rfl, hd0⟩

theorem numberToString_decompose (q : ℚ) (hq : IsDecimal q) (h0 : q ≠ 0) :
    ∃ (d0 : Char) (ds0 : List Char) (n : Int),
      numberToString q = (if q < 0 then ['-'] else []) ++ renderDecimal (d0 :: ds0) n
      ∧ (∀ d ∈ d0 :: ds0, d.isDigit = true)
      ∧ d0 ≠ '0'
      ∧ (digitsValue (d0 :: ds0) : ℚ) * (10 : ℚ) ^ (n - ((d0 :: ds0).length : Int)) = |q| := by
  have hdvd := decimalPlaces_dvd q hq
  set j := decimalPlaces q.den with hj
  set m := q.num.natAbs * 10 ^ j / q.den with hm
  have hden : q.den ≠ 0 := q.den_nz
  have hnum : q.num.natAbs ≠ 0 := by
    intro h
    exact h0 (Rat.zero_of_num_zero (Int.natAbs_eq_zero.mp h))
  have hmul : m * q.den = q.num.natAbs * 10 ^ j :=
    Nat.div_mul_cancel (Dvd.dvd.mul_left hdvd _)
  have hm0 : m ≠ 0 := by
    intro h
    rw [h, zero_mul] at hmul
    have : q.num.natAbs * 10 ^ j ≠ 0 := Nat.mul_ne_zero hnum (by positivity)
    exact this hmul.symm
  obtain ⟨c, cs, hcs, hc⟩ := natDigitsAux_head m m le_rfl hm0
  have hdigits := natDigitsAux_isDigit m m
  have hval := digitsValue_natDigitsAux m m le_rfl
  have hsplit := dropTrailingZeros_spec (natDigits m)
  have hlenle : (dropTrailingZeros (natDigits m)).length ≤ (natDigits m).length := by
    simp [dropTrailingZeros]
    exact (List.dropWhile_sublist _).length_le.trans (by simp)
  cases hsig : dropTrailingZeros (natDigits m) with
  | nil =>
    exfalso
    rw [hsig, List.nil_append] at hsplit
    have hmem : c ∈ natDigits m := by
      rw [natDigits, hcs]; exact List.mem_cons_self _ _
    rw [hsplit] at hmem
    exact hc (List.eq_of_mem_replicate hmem)
  | cons d0 ds0 =>
    rw [hsig] at hsplit hlenle
    have hd0 : d0 = c := by
      have h1 : natDigits m = c :: cs := hcs
      rw [h1] at hsplit
      simp only [List.cons_append] at hsplit
      exact (List.cons.inj hsplit).1.symm
    have hsub : ∀ d ∈ d0 :: ds0, d.isDigit = true := by
      intro d hd
      apply hdigits d
      show d ∈ natDigits m
      rw [hsplit]
      exact List.mem_append_left _ hd
    refine ⟨d0, ds0, ((natDigits m).length : Int) - (j : Int), ?_, hsub, hd0 ▸ hc, ?_⟩
    · simp only [numberToString, if_neg h0]
      rw [← hj, ← hm, hsig]
    · -- the value
      have hvalue : digitsValue (d0 :: ds0)
          * 10 ^ ((natDigits m).length - (d0 :: ds0).length) = m := by
        have h2 : digitsValue (natDigits m) = m := hval
        rw [hsplit, digitsValue_append, digitsValue_replicate_zero, List.length_replicate,
          add_zero] at h2
        exact h2
      have hq : |q| = (q.num.natAbs : ℚ) / (q.den : ℚ) := by
        rw [Rat.abs_def, Rat.divInt_eq_div]
        simp [Nat.cast_natAbs]
      have hmq : (m : ℚ) * (q.den : ℚ) = (q.num.natAbs : ℚ) * (10 : ℚ) ^ j := by
        exact_mod_cast hmul
      have hdenq : (q.den : ℚ) ≠ 0 := by exact_mod_cast hden
      have hten : (10 : ℚ) ≠ 0 := by norm_num
      have hexp : ((natDigits m).length : Int) - (j : Int) - ((d0 :: ds0).length : Int)
          = (((natDigits m).length - (d0 :: ds0).length : Nat) : Int) - (j : Int) := by
        omega
      rw [hexp, zpow_sub₀ hten, zpow_natCast, zpow_natCast, hq, ← mul_div_assoc]
      have hv : (digitsValue (d0 :: ds0) : ℚ)
          * (10 : ℚ) ^ ((natDigits m).length - (d0 :: ds0).length) = (m : ℚ) := by
        exact_mod_cast hvalue
      rw [hv, div_eq_div_iff (pow_ne_zero _ hten) hdenq, hmq]

theorem parseNumber_numberToString (q : ℚ) (hq : IsDecimal q) (t : Char) (tl : List Char)
    (ht : t.isDigit = false) (hdot : t ≠ '.') (he : t ≠ 'e') (hE : t ≠ 'E') :
    parseNumber (numberToString q ++ t :: tl) = some (q, t :: tl) := by
  by_cases h0 : q = 0
  · subst h0
    have hp := parseUnsigned_of_parts ['0'] [] tl (t :: tl) (t :: tl) t 0 (by simp) (by simp)
      (by simp) ht (parseFraction_none t tl hdot) (parseExponent_none t tl he hE)
    have hzero : digitsValue (['0'] ++ []) = 0 := rfl
    rw [hzero] at hp
    simp only [numberToString, if_true, parseNumber, List.cons_append, List.nil_append]
    rw [if_neg (by decide)]
    simpa using hp
  · obtain ⟨d0, ds0, n, htext, hsig, hd0, hvalue⟩ := numberToString_decompose q hq h0
    have hparse := parseUnsigned_renderDecimal n t d0 tl ds0 hsig hd0 ht hdot he hE
    rw [hvalue] at hparse
    obtain ⟨h, rest, hhead, hdigit⟩ :=
      renderDecimal_head n d0 ds0 (hsig d0 (List.mem_cons_self _ _))
    rw [htext]
    by_cases hneg : q < 0
    · simp only [if_pos hneg, List.cons_append, List.nil_append, parseNumber, if_true]
      rw [hparse]
      simp [abs_of_neg hneg]
    · have hminus : h ≠ '-' := by
        intro hh
        rw [hh] at hdigit
        exact absurd hdigit (by decide)
      simp only [if_neg hneg, List.nil_append]
      rw [hhead] at hparse ⊢
      simp only [List.cons_append, parseNumber, if_neg hminus]
      simp only [List.cons_append] at hparse
      rw [hparse]
      simp [abs_of_nonneg (not_lt.mp hneg)]

theorem numberToString_head (q : ℚ) (hq : IsDecimal q) :
    ∃ h tl, numberToString q = h :: tl ∧ (h.isDigit = true ∨ h = '-') := by
  by_cases h0 : q = 0
  · subst h0
    exact ⟨'0', [], by simp [numberToString], Or.inl (by decide)⟩
  · obtain ⟨d0, ds0, n, htext, hsig, _, _⟩ := numberToString_decompose q hq h0
    obtain ⟨h, rest, hhead, hdigit⟩ :=
      renderDecimal_head n d0 ds0 (hsig d0 (List.mem_cons_self _ _))
    rw [htext, hhead]
    by_cases hneg : q < 0
    · exact ⟨'-', h :: rest, by simp [hneg], Or.inr rfl⟩
    · exact ⟨h, rest, by simp [hneg], Or.inl hdigit⟩

/-! ## Reading back a quoted string -/

theorem hexValue4_hexChar (n : Nat) (h : n < 32) :
    hexValue4 '0' '0' (hexChar (n / 16)) (hexChar (n % 16)) = some n := by
  interval_cases n <;> rfl

theorem parseStringUnits_cons (c : Char) (rest : List Char) :
    parseStringUnits (c :: rest) =
      if c = '\"' then some ([], rest)
      else if c = '\\' then
        match rest with
        | [] => none
        | e :: rest2 =>
          if e = 'u' then
            match rest2 with
            | h1 :: h2 :: h3 :: h4 :: rest3 =>
              match hexValue4 h1 h2 h3 h4 with
              | none => none
              | some n => (parseStringUnits rest3).map (fun r => (n :: r.1, r.2))
            | _ => none
          else
            match unescape e with
            | none => none
            | some ch => (parseStringUnits rest2).map (fun r => (ch.toNat :: r.1, r.2))
      else if c.toNat < 32 then none
      else (parseStringUnits rest).map (fun r => (c.toNat :: r.1, r.2)) := by
  rw [parseStringUnits.eq_def]

theorem parseStringUnits_quoteChars (s : List Char) (rest : List Char) :
    parseStringUnits (quoteChars s ++ '\"' :: rest) = some (s.map Char.toNat, rest) := by
  induction s with
  | nil => simp [quoteChars, parseStringUnits_cons]
  | cons c cs ih =>
    simp only [quoteChars, quoteChar]
    by_cases h1 : c = '\"'
    · subst h1
      simp [parseStringUnits_cons, unescape, ih]
    rw [if_neg h1]
    by_cases h2 : c = '\\'
    · subst h2
      simp [parseStringUnits_cons, unescape, ih]
    rw [if_neg h2]
    by_cases h3 : c = '\x08'
    · subst h3
      simp [parseStringUnits_cons, unescape, ih]
    rw [if_neg h3]
    by_cases h4 : c = '\x0c'
    · subst h4
      simp [parseStringUnits_cons, unescape, ih]
    rw [if_neg h4]
    by_cases h5 : c = '\n'
    · subst h5
      simp [parseStringUnits_cons, unescape, ih]
    rw [if_neg h5]
    by_cases h6 : c = '\r'
    · subst h6
      simp [parseStringUnits_cons, unescape, ih]
    rw [if_neg h6]
    by_cases h7 : c = '\t'
    · subst h7
      simp [parseStringUnits_cons, unescape, ih]
    rw [if_neg h7]
    by_cases h8 : c.toNat < 32
    · rw [if_pos h8]
      simp [parseStringUnits_cons, hexValue4_hexChar c.toNat h8, ih]
    · rw [if_neg h8]
      simp [parseStringUnits_cons, h1, h2, h8, ih]

theorem char_not_surrogate (c : Char) : ¬ (0xD800 ≤ c.toNat ∧ c.toNat ≤ 0xDFFF) := by
  have h := c.valid
  simp only [UInt32.isValidChar, Nat.isValidChar] at h
  intro hc
  have : c.toNat = c.val.toNat := rfl
  omega

theorem decodeUnits_toNat (s : List Char) : decodeUnits (s.map Char.toNat) = s := by
  induction s with
  | nil => rfl
  | cons c cs ih =>
    have hc := char_not_surrogate c
    cases cs with
    | nil => simp [decodeUnits, hc, Char.ofNat_toNat]
    | cons d ds =>
      have hhi : ¬ (0xD800 ≤ c.toNat ∧ c.toNat ≤ 0xDBFF ∧ 0xDC00 ≤ d.toNat ∧ d.toNat ≤ 0xDFFF) := by
        intro h
        exact hc ⟨h.1, by omega⟩
      simp only [List.map_cons, decodeUnits, if_neg hhi, if_neg hc, Char.ofNat_toNat]
      simp only [List.map_cons] at ih
      rw [ih]

theorem parseString_quote (s : String) (rest : List Char) :
    parseString (quoteChars s.data ++ '\"' :: rest) = some (s, rest) := by
  simp [parseString, parseStringUnits_quoteChars, decodeUnits_toNat]

/-! ## Reading back a printed value -/

theorem parseValue_succ (fuel : Nat) (cs : List Char) :
    parseValue (fuel + 1) cs =
      match skipWhitespace cs with
      | [] => none
      | c :: rest =>
        if c = '\x7b' then
          match skipWhitespace rest with
          | [] => none
          | d :: rest2 =>
            if d = '\x7d' then some (JSValue.obj [], rest2)
            else (parseMembers fuel (d :: rest2)).map (fun r => (JSValue.obj r.1, r.2))
        else if c = '[' then
          match skipWhitespace rest with
          | [] => none
          | d :: rest2 =>
            if d = ']' then some (JSValue.arr [], rest2)
            else (parseElements fuel (d :: rest2)).map (fun r => (JSValue.arr r.1, r.2))
        else if c = '\"' then (parseString rest).map (fun r => (JSValue.str r.1, r.2))
        else if c = 'n' then
          (parseWord ['u', 'l', 'l'] rest).map (fun r => (JSValue.null, r))
        else if c = 't' then
          (parseWord ['r', 'u', 'e'] rest).map (fun r => (JSValue.bool true, r))
        else if c = 'f' then
          (parseWord ['a', 'l', 's', 'e'] rest).map (fun r => (JSValue.bool false, r))
        else (parseNumber (c :: rest)).map (fun r => (JSValue.num r.1, r.2)) := by
  rw [parseValue]

theorem parseElements_succ (fuel : Nat) (cs : List Char) :
    parseElements (fuel + 1) cs =
      match parseValue fuel cs with
      | none => none
      | some (v, rest) =>
        match skipWhitespace rest with
        | [] => none
        | c :: rest2 =>
          if c = ',' then (parseElements fuel rest2).map (fun r => (v :: r.1, r.2))
          else if c = ']' then some ([v], rest2)
          else none := by
  rw [parseElements]

theorem parseMembers_succ (fuel : Nat) (cs : List Char) :
    parseMembers (fuel + 1) cs =
      match skipWhitespace cs with
      | [] => none
      | q :: rest =>
        if q = '\"' then
          match parseString rest with
          | none => none
          | some (key, rest2) =>
            match skipWhitespace rest2 with
            | [] => none
            | colon :: rest3 =>
              if colon = ':' then
                match parseValue fuel rest3 with
                | none => none
                | some (v, rest4) =>
                  match skipWhitespace rest4 with
                  | [] => none
                  | c :: rest5 =>
                    if c = ',' then
                      (parseMembers fuel rest5).map (fun r => ((key, v) :: r.1, r.2))
                    else if c = '\x7d' then some ([(key, v)], rest5)
                    else none
              else none
        else none := by
  rw [parseMembers]

theorem skipWhitespace_cons (c : Char) (cs : List Char) (h : isWhitespace c = false) :
    skipWhitespace (c :: cs) = c :: cs := by
  simp [skipWhitespace, List.dropWhile, h]

theorem parseValue_string (fuel : Nat) (s : String) (rest : List Char) :
    parseValue (fuel + 1) ('\"' :: (quoteChars s.data ++ '\"' :: rest))
      = some (JSValue.str s, rest) := by
  rw [parseValue_succ, skipWhitespace_cons _ _ (by decide)]
  simp [parseString_quote]

theorem number_start (h : Char) (hh : h.isDigit = true ∨ h = '-') :
    isWhitespace h = false ∧ h ≠ '\x7b' ∧ h ≠ '[' ∧ h ≠ '\"' ∧ h ≠ 'n' ∧ h ≠ 't' ∧ h ≠ 'f' := by
  rcases hh with hd | rfl
  · refine ⟨?_, ?_, ?_, ?_, ?_, ?_, ?_⟩
    · cases hw : isWhitespace h with
      | false => rfl
      | true =>
        simp only [isWhitespace, Bool.or_eq_true, decide_eq_true_eq] at hw
        rcases hw with ((rfl | rfl) | rfl) | rfl <;> exact absurd hd (by decide)
    all_goals
      intro heq
      rw [heq] at hd
      exact absurd hd (by decide)
  · decide

theorem parseValue_number (fuel : Nat) (q : ℚ) (hq : IsDecimal q) (t : Char) (tl : List Char)
    (ht : t = ',' ∨ t = '\x7d') :
    parseValue (fuel + 1) (numberToString q ++ t :: tl) = some (JSValue.num q, t :: tl) := by
  have hparse := parseNumber_numberToString q hq t tl
    (by rcases ht with rfl | rfl <;> decide) (by rcases ht with rfl | rfl <;> decide)
    (by rcases ht with rfl | rfl <;> decide) (by rcases ht with rfl | rfl <;> decide)
  obtain ⟨h, rest, hhead, hh⟩ := numberToString_head q hq
  obtain ⟨hw, h1, h2, h3, h4, h5, h6⟩ := number_start h hh
  rw [hhead] at hparse ⊢
  rw [List.cons_append] at hparse ⊢
  rw [parseValue_succ, skipWhitespace_cons _ _ hw]
  simp only [if_neg h1, if_neg h2, if_neg h3, if_neg h4, if_neg h5, if_neg h6, hparse]
  rfl

theorem parseMembers_step (fuel : Nat) (k : String) (v : JSValue) (vtext tail : List Char)
    (hv : ∀ t tl, t = ',' ∨ t = '\x7d' →
      parseValue (fuel + 1) (vtext ++ t :: tl) = some (v, t :: tl)) :
    parseMembers (fuel + 2)
        ('\"' :: (quoteChars k.data ++ '\"' :: ':' :: (vtext ++ ',' :: tail)))
      = (parseMembers (fuel + 1) tail).map (fun r => ((k, v) :: r.1, r.2))
    ∧ parseMembers (fuel + 2)
        ('\"' :: (quoteChars k.data ++ '\"' :: ':' :: (vtext ++ '\x7d' :: tail)))
      = some ([(k, v)], tail) := by
  constructor
  · rw [parseMembers_succ, skipWhitespace_cons _ _ (by decide)]
    simp only [if_true, parseString_quote, skipWhitespace_cons ':' _ (by decide),
      hv ',' tail (Or.inl rfl), skipWhitespace_cons ',' _ (by decide)]
  · rw [parseMembers_succ, skipWhitespace_cons _ _ (by decide)]
    simp only [if_true, parseString_quote, skipWhitespace_cons ':' _ (by decide),
      hv '\x7d' tail (Or.inr rfl), skipWhitespace_cons '\x7d' _ (by decide)]
    simp

theorem isDecimal_intCast (n : Int) : IsDecimal (n : ℚ) := by
  simp [IsDecimal]

theorem parseMembers_number_more (fuel : Nat) (k : String) (q : ℚ) (hq : IsDecimal q)
    (tail : List Char) :
    parseMembers (fuel + 2)
        ('\"' :: (quoteChars k.data ++ '\"' :: ':' :: (numberToString q ++ ',' :: tail)))
      = (parseMembers (fuel + 1) tail).map (fun r => ((k, JSValue.num q) :: r.1, r.2)) :=
  (parseMembers_step fuel k (JSValue.num q) (numberToString q) tail
    (fun t tl ht => parseValue_number fuel q hq t tl ht)).1

theorem parseMembers_number_last (fuel : Nat) (k : String) (q : ℚ) (hq : IsDecimal q)
    (tail : List Char) :
    parseMembers (fuel + 2)
        ('\"' :: (quoteChars k.data ++ '\"' :: ':' :: (numberToString q ++ '\x7d' :: tail)))
      = some ([(k, JSValue.num q)], tail) :=
  (parseMembers_step fuel k (JSValue.num q) (numberToString q) tail
    (fun t tl ht => parseValue_number fuel q hq t tl ht)).2

theorem parseMembers_string_more (fuel : Nat) (k s : String) (tail : List Char) :
    parseMembers (fuel + 2)
        ('\"' :: (quoteChars k.data ++ '\"' :: ':' :: '\"'
          :: (quoteChars s.data ++ '\"' :: ',' :: tail)))
      = (parseMembers (fuel + 1) tail).map (fun r => ((k, JSValue.str s) :: r.1, r.2)) := by
  have h := (parseMembers_step fuel k (JSValue.str s) ('\"' :: (quoteChars s.data ++ ['\"'])) tail
    (fun t tl _ => by
      have := parseValue_string fuel s (t :: tl)
      simpa using this)).1
  simpa using h

theorem parseValue_transaction (fuel : Nat) (t : Transaction) (ht : IsDecimal t.amount)
    (rest : List Char) :
    parseValue (fuel + 9) (render t.toJS ++ rest) = some (t.toJS, rest) := by
  simp only [Transaction.toJS, render, renderMembers, quote, List.cons_append,
    List.append_assoc, List.nil_append]
  rw [parseValue_succ, skipWhitespace_cons _ _ (by decide)]
  simp only [if_true]
  rw [skipWhitespace_cons _ _ (by decide)]
  simp only [show ('\"' : Char) ≠ '\x7d' by decide, if_false]
  rw [parseMembers_number_more (fuel + 6) "id" _ (isDecimal_intCast _),
    parseMembers_string_more (fuel + 5) "description",
    parseMembers_number_more (fuel + 4) "amount" _ ht,
    parseMembers_string_more (fuel + 3) "type",
    parseMembers_string_more (fuel + 2) "category",
    parseMembers_string_more (fuel + 1) "date",
    parseMembers_number_last fuel "timestamp" _ (isDecimal_intCast _)]
  rfl

theorem parseElements_transactions (ts : List Transaction) (t : Transaction)
    (hamount : ∀ u ∈ t :: ts, IsDecimal u.amount) (fuel : Nat) (rest : List Char) :
    parseElements (fuel + ts.length + 10)
        (render t.toJS ++ (renderItems (ts.map Transaction.toJS) ++ ']' :: rest))
      = some (t.toJS :: ts.map Transaction.toJS, rest) := by
  induction ts generalizing t with
  | nil =>
    rw [parseElements_succ]
    simp only [List.length_nil, Nat.add_zero, List.map_nil, renderItems, List.nil_append]
    rw [parseValue_transaction fuel t (hamount t (List.mem_cons_self _ _))]
    simp only [skipWhitespace_cons ']' _ (by decide)]
    rfl
  | cons u us ih =>
    rw [parseElements_succ]
    simp only [List.length_cons, List.map_cons, renderItems, List.cons_append, List.append_assoc]
    have hfuel : fuel + (us.length + 1) + 9 = (fuel + us.length + 1) + 9 := by omega
    rw [hfuel, parseValue_transaction _ t (hamount t (List.mem_cons_self _ _))]
    simp only [skipWhitespace_cons ',' _ (by decide), if_true]
    have hfuel2 : fuel + us.length + 1 + 9 = fuel + us.length + 10 := by omega
    rw [hfuel2, ih u (fun x hx => hamount x (List.mem_cons_of_mem _ hx))]
    rfl

/-! ## Saving and loading -/

theorem renderItems_length (vs : List JSValue) : vs.length ≤ (renderItems vs).length := by
  induction vs with
  | nil => simp [renderItems]
  | cons v vs ih =>
    simp only [renderItems, List.length_cons, List.length_append]
    omega

theorem render_toJS_head (t : Transaction) :
    ∃ body, render t.toJS = '\x7b' :: '\"' :: 'i' :: 'd' :: body := by
  simp only [Transaction.toJS, render, quote, List.cons_append]
  exact ⟨_, rfl⟩

theorem parse_stringify_transactions (ts : List Transaction)
    (hamount : ∀ t ∈ ts, IsDecimal t.amount) :
    JSON.parse (JSON.stringify (transactionsToJS ts)) = some (transactionsToJS ts) := by
  cases ts with
  | nil => rfl
  | cons t ts =>
    obtain ⟨body, hbody⟩ := render_toJS_head t
    have hitems := renderItems_length (ts.map Transaction.toJS)
    rw [List.length_map] at hitems
    have htext : render (transactionsToJS (t :: ts))
        = '[' :: (render t.toJS ++ (renderItems (ts.map Transaction.toJS) ++ [']'])) := by
      simp only [transactionsToJS, List.map_cons, render]
    have hlen : ts.length + 6 ≤ (render (transactionsToJS (t :: ts))).length := by
      rw [htext, hbody]
      simp only [List.length_cons, List.length_append, List.length_nil]
      omega
    obtain ⟨fuel, hfuel⟩ : ∃ fuel,
        2 * (render (transactionsToJS (t :: ts))).length + 2 = (fuel + ts.length + 10) + 1 :=
      ⟨2 * (render (transactionsToJS (t :: ts))).length + 2 - (ts.length + 11), by omega⟩
    have hparse := parseElements_transactions ts t hamount fuel []
    simp only [JSON.parse, JSON.stringify]
    rw [hfuel, parseValue_succ, htext, skipWhitespace_cons _ _ (by decide)]
    simp only [show ('[' : Char) ≠ '\x7b' by decide, if_false, if_true]
    rw [hbody, List.cons_append, skipWhitespace_cons _ _ (by decide)]
    simp only [show ('\x7b' : Char) ≠ ']' by decide, if_false]
    rw [← List.cons_append, ← hbody, hparse]
    rfl

theorem toJS_injective (a b : Transaction) (h : a.toJS = b.toJS) : a = b := by
  cases a
  cases b
  simp only [Transaction.toJS, JSValue.obj.injEq, List.cons.injEq, Prod.mk.injEq, JSValue.num.injEq,
    JSValue.str.injEq, Int.cast_inj, true_and, and_true] at h
  obtain ⟨h1, h2, h3, h4, h5, h6, h7⟩ := h
  subst h1 h2 h3 h4 h5 h6 h7
  rfl

theorem transactionsToJS_injective (a b : List Transaction)
    (h : transactionsToJS a = transactionsToJS b) : a = b := by
  simp only [transactionsToJS, JSValue.arr.injEq] at h
  exact List.map_injective_iff.mpr (fun x y hxy => toJS_injective x y hxy) h

theorem stringify_ne_empty (ts : List Transaction) :
    JSON.stringify (transactionsToJS ts) ≠ "" := by
  intro h
  have hdata := congrArg String.data h
  cases ts <;> simp [JSON.stringify, transactionsToJS, render] at hdata

/-- C6: for every snapshot (with amounts that are finite decimals, as every
JavaScript number is), the load effect run on the store the save effect wrote
sets the state to the value that was saved: the same records, with the same
fields and values, in the same order. -/
theorem save_load_roundtrip (transactions : List Transaction) (localStorage : Storage)
    (hdecimal : ∀ t ∈ transactions, IsDecimal t.amount) :
    loadTransactions (saveTransactions transactions localStorage)
        = LoadOutcome.set (transactionsToJS transactions)
    ∧ ∀ other : List Transaction,
        transactionsToJS other = transactionsToJS transactions → other = transactions := by
  refine ⟨?_, fun other h => transactionsToJS_injective other transactions h⟩
  simp only [loadTransactions, saveTransactions, Storage.getItem, Storage.setItem, if_true,
    if_neg (stringify_ne_empty transactions),
    parse_stringify_transactions transactions hdecimal]

/-! ### A concrete check of the printed text -/

theorem numberToString_intCast_eval (n : Int) (text : List Char) (hpos : 0 < n)
    (h : renderDecimal (dropTrailingZeros (natDigits n.natAbs)) ((natDigits n.natAbs).length : Int)
      = text) :
    numberToString (n : ℚ) = text := by
  have h0 : (n : ℚ) ≠ 0 := by exact_mod_cast hpos.ne'
  have hneg : ¬ (n : ℚ) < 0 := by exact_mod_cast not_lt.mpr hpos.le
  simp only [numberToString, if_neg h0, if_neg hneg, Rat.intCast_den, Rat.intCast_num]
  simpa [decimalPlaces, decimalPlacesFrom] using h

set_option maxRecDepth 100000 in
/-- The text the save effect writes for the sample ledger is the text
`JSON.stringify` gives in JavaScript. -/
theorem stringify_sampleLedger :
    JSON.stringify (transactionsToJS sampleLedger)
      = "[\x7b\"id\":1700000000001,\"description\":\"Salary\",\"amount\":100.5,\"type\":\"income\",\"category\":\"Salary\",\"date\":\"2024-01-16\",\"timestamp\":1700000000001\x7d,\x7b\"id\":1700000000000,\"description\":\"Coffee \\\"to go\\\"\",\"amount\":30.25,\"type\":\"expense\",\"category\":\"Food\",\"date\":\"2024-01-15\",\"timestamp\":1700000000000\x7d]" := by
  have h1 : numberToString ((1700000000001 : Int) : ℚ) = "1700000000001".data :=
    numberToString_intCast_eval _ _ (by decide) (by decide)
  have h2 : numberToString ((1700000000000 : Int) : ℚ) = "1700000000000".data :=
    numberToString_intCast_eval _ _ (by decide) (by decide)
  have h3 : numberToString (100.50 : ℚ) = "100.5".data := by
    have hden : (100.50 : ℚ).den = 2 := by norm_num
    have hnum : (100.50 : ℚ).num = 201 := by norm_num
    have h0 : (100.50 : ℚ) ≠ 0 := by norm_num
    have hneg : ¬ (100.50 : ℚ) < 0 := by norm_num
    simp only [numberToString, if_neg h0, if_neg hneg, hden, hnum]
    decide
  have h4 : numberToString (30.25 : ℚ) = "30.25".data := by
    have hden : (30.25 : ℚ).den = 4 := by norm_num
    have hnum : (30.25 : ℚ).num = 121 := by norm_num
    have h0 : (30.25 : ℚ) ≠ 0 := by norm_num
    have hneg : ¬ (30.25 : ℚ) < 0 := by norm_num
    simp only [numberToString, if_neg h0, if_neg hneg, hden, hnum]
    decide
  simp only [JSON.stringify, transactionsToJS, sampleLedger, List.map, Transaction.toJS, render,
    renderItems, renderMembers, h1, h2, h3, h4]
  decide

theorem save_load_roundtrip_witness :
    (∀ t ∈ sampleLedger, IsDecimal t.amount)
    ∧ loadTransactions (saveTransactions sampleLedger emptyStorage)
        = LoadOutcome.set (transactionsToJS sampleLedger) :=
  ⟨by simp [sampleLedger, IsDecimal]; norm_num,
    (save_load_roundtrip sampleLedger emptyStorage
      (by simp [sampleLedger, IsDecimal]; norm_num)).1⟩

/-- C5, as stated, fails: with the text `oops` stored under "transactions" the
load effect ends with the error of `JSON.parse` and yields no snapshot; with
the text of an empty object stored, it sets the state to that object, not to an
empty list. -/
theorem load_malformed_throws :
    JSON.parse "oops" = none
    ∧ loadTransactions (emptyStorage.setItem "transactions" "oops") = LoadOutcome.threw
    ∧ (loadTransactions (emptyStorage.setItem "transactions" "oops")).snapshot = none
    ∧ (loadTransactions (emptyStorage.setItem "transactions" "\x7b\x7d")).snapshot
        = some (JSValue.obj []) := by
  refine ⟨rfl, rfl, rfl, rfl⟩

/-- C5, amended: when the store holds nothing under the key "transactions" (or
the empty string), the load effect leaves the state at its initial empty list
and throws nothing.  Malformed content is not guarded: it goes to `JSON.parse`
outside any `try`. -/
theorem load_absent_keeps_empty (localStorage : Storage)
    (habsent : localStorage.getItem "transactions" = none
      ∨ localStorage.getItem "transactions" = some "") :
    loadTransactions localStorage = LoadOutcome.kept
    ∧ (loadTransactions localStorage).snapshot = some (JSValue.arr []) := by
  have hkept : loadTransactions localStorage = LoadOutcome.kept := by
    rcases habsent with h | h <;> simp [loadTransactions, h]
  rw [hkept]
  exact ⟨rfl, rfl⟩

theorem load_absent_keeps_empty_witness :
    loadTransactions emptyStorage = LoadOutcome.kept
    ∧ (loadTransactions emptyStorage).snapshot = some (JSValue.arr []) :=
  load_absent_keeps_empty emptyStorage (Or.inl rfl)

end ExpenseTracker
